import Mathlib

/-!
Verification development for the payment-transport core of the sphinx-relay
repository: the lightning backend layer (src/grpc/lightning.ts) and the LDAT
token codec (utils/ldat).  JavaScript strings are modelled as `List Char`,
byte buffers as `List Nat` (each element < 256 where it matters), promise
results as `Except`/`Option`, and external collaborators (crypto, RPC
replies, configuration) as explicit function or value parameters.
-/

namespace SphinxRelay

set_option maxRecDepth 8192

/-! ## Hex encoding (Buffer 'hex', Number.toString(16)) -/

/-- Lowercase hexadecimal digit character. -/
def hexDigitChar (n : Nat) : Char :=
  if n < 10 then Char.ofNat (48 + n) else Char.ofNat (87 + n)

/-- Value of a hex digit as accepted by Node hex parsing (0-9, a-f, A-F). -/
def hexCharVal (c : Char) : Option Nat :=
  if 48 ≤ c.toNat ∧ c.toNat ≤ 57 then some (c.toNat - 48)
  else if 97 ≤ c.toNat ∧ c.toNat ≤ 102 then some (c.toNat - 87)
  else if 65 ≤ c.toNat ∧ c.toNat ≤ 70 then some (c.toNat - 55)
  else none

/-- Buffer.prototype.toString('hex'): two lowercase digits per byte. -/
def hexEncode (bs : List Nat) : List Char :=
  bs.foldr (fun b acc => hexDigitChar (b / 16) :: hexDigitChar (b % 16) :: acc) []

/-- Buffer.from(str, 'hex'): consume hex digit pairs; parsing stops at the
first invalid character or unpaired trailing digit. -/
def hexDecode : List Char → List Nat
  | c1 :: c2 :: rest =>
    match hexCharVal c1, hexCharVal c2 with
    | some v1, some v2 => (v1 * 16 + v2) :: hexDecode rest
    | _, _ => []
  | _ => []

/-- Lowercase hex digits, the alphabet produced by `hexEncode`/`natToHexStr`. -/
def isLowerHex (c : Char) : Bool :=
  (48 ≤ c.toNat && c.toNat ≤ 57) || (97 ≤ c.toNat && c.toNat ≤ 102)

/-! ## Decimal and hex rendering of numbers (JS String(n), n.toString(16)).
The auxiliary functions take explicit fuel (first argument) so that they are
structurally recursive; a number n has at most n digits, so fuel n always
suffices. -/

def natToDecAux : Nat → Nat → List Char
  | 0, _ => []
  | fuel + 1, n => if n = 0 then [] else natToDecAux fuel (n / 10) ++ [Char.ofNat (48 + n % 10)]

/-- JS String(n) for a nonnegative integer. -/
def natToDecStr (n : Nat) : List Char := if n = 0 then ['0'] else natToDecAux n n

/-- JS String(i) for an integer. -/
def intToDecStr (i : Int) : List Char :=
  if i < 0 then '-' :: natToDecStr i.natAbs else natToDecStr i.natAbs

def natToHexAux : Nat → Nat → List Char
  | 0, _ => []
  | fuel + 1, n => if n = 0 then [] else natToHexAux fuel (n / 16) ++ [hexDigitChar (n % 16)]

/-- JS Number.prototype.toString(16): minimal lowercase hex, "0" for zero. -/
def natToHexStr (n : Nat) : List Char := if n = 0 then ['0'] else natToHexAux n n

/-! ## JS parseInt -/

def isJsSpace (c : Char) : Bool :=
  c.toNat = 32 || c.toNat = 9 || c.toNat = 10 || c.toNat = 11 || c.toNat = 12 || c.toNat = 13

def isDecDigit (c : Char) : Bool := 48 ≤ c.toNat && c.toNat ≤ 57

def decDigitsVal (s : List Char) : Nat := s.foldl (fun a c => a * 10 + (c.toNat - 48)) 0

def hexDigitsVal (s : List Char) : Nat := s.foldl (fun a c => a * 16 + (hexCharVal c).getD 0) 0

/-- The optional sign consumed by parseInt. -/
def jsSign : List Char → Int × List Char
  | '-' :: r => (-1, r)
  | '+' :: r => (1, r)
  | s => (1, s)

/-- JS parseInt(str) with no radix argument: skip whitespace, take an
optional sign, then either a 0x/0X-prefixed run of hex digits or a run of
leading decimal digits; NaN (modelled as none) when no digit is consumed. -/
def jsParseInt (s : List Char) : Option Int :=
  let p := jsSign (s.dropWhile isJsSpace)
  match p.2 with
  | '0' :: c :: r =>
    if c = 'x' ∨ c = 'X' then
      let ds := r.takeWhile (fun ch => (hexCharVal ch).isSome)
      if ds = [] then none else some (p.1 * (hexDigitsVal ds : Int))
    else
      some (p.1 * (decDigitsVal (('0' :: c :: r).takeWhile isDecDigit) : Int))
  | _ =>
    let ds := p.2.takeWhile isDecDigit
    if ds = [] then none else some (p.1 * (decDigitsVal ds : Int))

/-! ## Base64 (Buffer 'base64' in both directions, urlBase64 replacements) -/

/-- Standard base64 alphabet character for a 6-bit value. -/
def b64Char (n : Nat) : Char :=
  if n < 26 then Char.ofNat (65 + n)
  else if n < 52 then Char.ofNat (97 + (n - 26))
  else if n < 62 then Char.ofNat (48 + (n - 52))
  else if n = 62 then '+' else '/'

/-- Buffer.prototype.toString('base64'): 3 bytes to 4 characters, '='-padded. -/
def b64EncodeCore : List Nat → List Char
  | [] => []
  | [a] => [b64Char (a / 4), b64Char (a % 4 * 16), '=', '=']
  | [a, b] => [b64Char (a / 4), b64Char (a % 4 * 16 + b / 16), b64Char (b % 16 * 4), '=']
  | a :: b :: c :: rest =>
    b64Char (a / 4) :: b64Char (a % 4 * 16 + b / 16) ::
      b64Char (b % 16 * 4 + c / 64) :: b64Char (c % 64) :: b64EncodeCore rest

/-- The urlBase64 character replacements: .replace(/\//g, _).replace(/\+/g, -),
applied per character since both targets are single characters. -/
def urlRepl (c : Char) : Char := if c = '/' then '_' else if c = '+' then '-' else c

/-- urlBase64 / urlBase64FromBytes: URL-safe base64 of a byte buffer. -/
def urlB64Encode (bs : List Nat) : List Char := (b64EncodeCore bs).map urlRepl

/-- 6-bit value of a base64 character as accepted by Buffer.from(_, 'base64'):
standard and URL-safe alphabets; everything else (including '=' padding) is
skipped by the decoder. -/
def b64DecVal (c : Char) : Option Nat :=
  if 65 ≤ c.toNat ∧ c.toNat ≤ 90 then some (c.toNat - 65)
  else if 97 ≤ c.toNat ∧ c.toNat ≤ 122 then some (c.toNat - 97 + 26)
  else if 48 ≤ c.toNat ∧ c.toNat ≤ 57 then some (c.toNat - 48 + 52)
  else if c = '+' ∨ c = '-' then some 62
  else if c = '/' ∨ c = '_' then some 63
  else none

def b64Groups : List Nat → List Nat
  | v1 :: v2 :: v3 :: v4 :: rest =>
    (v1 * 4 + v2 / 16) :: (v2 % 16 * 16 + v3 / 4) :: (v3 % 4 * 64 + v4) :: b64Groups rest
  | [v1, v2] => [v1 * 4 + v2 / 16]
  | [v1, v2, v3] => [v1 * 4 + v2 / 16, v2 % 16 * 16 + v3 / 4]
  | _ => []

/-- Buffer.from(str, 'base64'). -/
def b64Decode (s : List Char) : List Nat := b64Groups (s.filterMap b64DecVal)

/-! ## ASCII (Buffer 'ascii') -/

/-- Buffer.from(str, 'ascii'): when writing, same as latin1 (low byte). -/
def asciiEncode (s : List Char) : List Nat := s.map (fun c => c.toNat % 256)

/-- Buffer.prototype.toString('ascii'): clear the high bit of each byte,
then latin1. -/
def asciiDecode (bs : List Nat) : List Char := bs.map (fun b => Char.ofNat (b % 128))

/-! ## String splitting and joining -/

/-- JS String.prototype.split(sep) for a single-character separator. -/
def splitOnChar (sep : Char) : List Char → List (List Char)
  | [] => [[]]
  | c :: rest =>
    match splitOnChar sep rest with
    | [] => [[]]
    | g :: gs => if c = sep then [] :: g :: gs else (c :: g) :: gs

/-- JS Array.prototype.join(sep) for a single-character separator. -/
def joinChar (sep : Char) : List (List Char) → List Char
  | [] => []
  | [s] => s
  | s :: rest => s ++ sep :: joinChar sep rest

/-! ## encodeURIComponent / decodeURIComponent -/

/-- UTF-8 bytes of a unicode scalar value. -/
def utf8Bytes (n : Nat) : List Nat :=
  if n < 128 then [n]
  else if n < 2048 then [192 + n / 64, 128 + n % 64]
  else if n < 65536 then [224 + n / 4096, 128 + n / 64 % 64, 128 + n % 64]
  else [240 + n / 262144, 128 + n / 4096 % 64, 128 + n / 64 % 64, 128 + n % 64]

def utf8Encode (s : List Char) : List Nat :=
  s.foldr (fun c acc => utf8Bytes c.toNat ++ acc) []

def hexDigitUpper (n : Nat) : Char :=
  if n < 10 then Char.ofNat (48 + n) else Char.ofNat (55 + n)

/-- The characters encodeURIComponent leaves unescaped:
A-Z a-z 0-9 - _ . ! ~ * ( ) and the apostrophe (code 39). -/
def isUnreservedURI (c : Char) : Bool :=
  (65 ≤ c.toNat && c.toNat ≤ 90) || (97 ≤ c.toNat && c.toNat ≤ 122) ||
  (48 ≤ c.toNat && c.toNat ≤ 57) ||
  c.toNat = 45 || c.toNat = 95 || c.toNat = 46 || c.toNat = 33 ||
  c.toNat = 126 || c.toNat = 42 || c.toNat = 39 || c.toNat = 40 || c.toNat = 41

def pctByte (b : Nat) : List Char := ['%', hexDigitUpper (b / 16), hexDigitUpper (b % 16)]

/-- JS encodeURIComponent: unreserved characters pass through, every other
character is the %XX escape of each of its UTF-8 bytes. -/
def encodeURIComponent (s : List Char) : List Char :=
  s.foldr
    (fun c acc =>
      (if isUnreservedURI c then [c]
       else (utf8Bytes c.toNat).foldr (fun b a2 => pctByte b ++ a2) []) ++ acc)
    []

/-- First pass of decodeURIComponent: each %XX escape becomes a byte
(Sum.inr), every other character passes through (Sum.inl); a '%' not
followed by two hex digits is a URIError, modelled none. -/
def pctSplit : List Char → Option (List (Sum Char Nat))
  | [] => some []
  | c :: rest =>
    if c = '%' then
      match rest with
      | c1 :: c2 :: rest2 =>
        match hexCharVal c1, hexCharVal c2 with
        | some v1, some v2 => (pctSplit rest2).map (fun l => Sum.inr (v1 * 16 + v2) :: l)
        | _, _ => none
      | _ => none
    else (pctSplit rest).map (fun l => Sum.inl c :: l)

/-- Value of a UTF-8 continuation byte. -/
def contVal (b : Nat) : Option Nat := if 128 ≤ b ∧ b < 192 then some (b - 128) else none

/-- Second pass of decodeURIComponent: runs of escaped bytes are decoded as
strict UTF-8 (overlong encodings, surrogates and out-of-range values are a
URIError, modelled none); unescaped characters pass through. -/
def decodeUnits : List (Sum Char Nat) → Option (List Char)
  | [] => some []
  | Sum.inl c :: rest => (decodeUnits rest).map (fun l => c :: l)
  | Sum.inr b :: rest =>
    if b < 128 then (decodeUnits rest).map (fun l => Char.ofNat b :: l)
    else if b < 194 then none
    else if b < 224 then
      match rest with
      | Sum.inr b2 :: rest2 =>
        match contVal b2 with
        | some v2 => (decodeUnits rest2).map (fun l => Char.ofNat ((b - 192) * 64 + v2) :: l)
        | none => none
      | _ => none
    else if b < 240 then
      match rest with
      | Sum.inr b2 :: Sum.inr b3 :: rest3 =>
        match contVal b2, contVal b3 with
        | some v2, some v3 =>
          let n := (b - 224) * 4096 + v2 * 64 + v3
          if n < 2048 ∨ (55296 ≤ n ∧ n < 57344) then none
          else (decodeUnits rest3).map (fun l => Char.ofNat n :: l)
        | _, _ => none
      | _ => none
    else if b < 245 then
      match rest with
      | Sum.inr b2 :: Sum.inr b3 :: Sum.inr b4 :: rest4 =>
        match contVal b2, contVal b3, contVal b4 with
        | some v2, some v3, some v4 =>
          let n := (b - 240) * 262144 + v2 * 4096 + v3 * 64 + v4
          if n < 65536 ∨ 1114111 < n then none
          else (decodeUnits rest4).map (fun l => Char.ofNat n :: l)
        | _, _, _ => none
      | _ => none
    else none

/-- JS decodeURIComponent (none models a thrown URIError). -/
def jsDecodeURIComponent (s : List Char) : Option (List Char) :=
  (pctSplit s).bind decodeUnits

/-! ## LDAT metadata serialization (serializeMeta / deserializeMeta) -/

/-- A JS metadata value: a number or a string. -/
inductive MetaVal
  | num (n : Int)
  | str (s : List Char)
deriving DecidableEq

/-- JS String(value) as applied by encodeURIComponent's ToString. -/
def metaValStr : MetaVal → List Char
  | .num n => intToDecStr n
  | .str s => s

/-- JS string comparison a > b (lexicographic by code unit), as `lexLt b a`. -/
def lexLt : List Char → List Char → Bool
  | [], [] => false
  | [], _ :: _ => true
  | _ :: _, [] => false
  | a :: as, b :: bs =>
    if a.toNat < b.toNat then true
    else if b.toNat < a.toNat then false
    else lexLt as bs

def insertEntry (x : List Char) : List (List Char) → List (List Char)
  | [] => [x]
  | y :: ys => if lexLt y x then y :: insertEntry x ys else x :: y :: ys

/-- Array.prototype.sort with the comparator (a, b) => (a > b ? 1 : -1):
an ascending sort by lexicographic code-unit order. -/
def sortEntries : List (List Char) → List (List Char)
  | [] => []
  | x :: xs => insertEntry x (sortEntries xs)

/-- One `encodeURIComponent(p) + = + encodeURIComponent(obj[p])` entry. -/
def metaEntryStr (kv : List Char × MetaVal) : List Char :=
  encodeURIComponent kv.1 ++ '=' :: encodeURIComponent (metaValStr kv.2)

/-- serializeMeta: entries in object-key order, sorted, '&'-joined.  The JS
object is modelled as an association list in key insertion order. -/
def serializeMeta (obj : List (List Char × MetaVal)) : List Char :=
  joinChar '&' (sortEntries (obj.map metaEntryStr))

/-- The coercion applied to each deserialized meta value:
(typeof v === 'string' && parseInt(v)) || v. -/
def coerceMetaVal (v : List Char) : MetaVal :=
  match jsParseInt v with
  | none => .str v
  | some 0 => .str v
  | some n => .num n

/-- deserializeMeta.  The JSON trick
JSON.parse of a quote-wrapped str.replace(/&/g, ...).replace(/=/g, ...)
splits the string on '&' into entries and each entry on '=' into exactly one
key and one value (an entry with zero or several '=' produces invalid JSON,
so JSON.parse throws, modelled none); keys are kept verbatim, values pass
through decodeURIComponent (whose URIError also propagates) and the int
coercion; a string of length ≤ 2 yields the empty mapping. -/
def deserializeMeta (s : List Char) : Option (List (List Char × MetaVal)) :=
  if 2 < s.length then
    (splitOnChar '&' s).mapM (fun e =>
      match splitOnChar '=' e with
      | [k, v] => (jsDecodeURIComponent v).map (fun dv => (k, coerceMetaVal dv))
      | _ => none)
  else some []

/-! ## LDAT token codec (startLDAT / tokenFromTerms / parseLDAT) -/

/-- The value returned by startLDAT: the dot-joined URL-safe-base64 terms
string and the raw concatenation of the five decoded field buffers. -/
structure StartedLDAT where
  terms : List Char
  bytes : List Nat
deriving DecidableEq

/-- startLDAT: host is written as ascii, muid and pk are base64-decoded,
exp is the hex bytes of its minimal hex rendering (empty when zero), meta
is the serialized metadata as ascii. -/
def startLDAT (host muid pk : List Char) (exp : Nat)
    (meta : List (List Char × MetaVal)) : StartedLDAT :=
  let hostBuf := asciiEncode host
  let muidBuf := b64Decode muid
  let pkBuf := if pk = [] then [] else b64Decode pk
  let expBuf := if exp = 0 then [] else hexDecode (natToHexStr exp)
  let metaBuf := asciiEncode (serializeMeta meta)
  { terms :=
      urlB64Encode hostBuf ++ '.' :: urlB64Encode muidBuf ++ '.' ::
        urlB64Encode pkBuf ++ '.' :: urlB64Encode expBuf ++ '.' :: urlB64Encode metaBuf
    bytes := hostBuf ++ muidBuf ++ pkBuf ++ expBuf ++ metaBuf }

/-- JS truthiness of the ttl argument (number | null). -/
def ttlTruthy : Option Int → Bool
  | none => false
  | some n => n ≠ 0

/-- The expiry computed in tokenFromTerms:
exp = ttl ? now + 60*60*24*365 : 0.  now is Math.floor(Date.now()/1000). -/
def ldatExp (ttl : Option Int) (now : Nat) : Nat :=
  if ttlTruthy ttl then now + 60 * 60 * 24 * 365 else 0

/-- JS a || b for strings. -/
def jsOrStr (a b : List Char) : List Char := if a = [] then b else a

/-- tokenFromTerms.  External collaborators are parameters: cfgMediaHost is
config.media_host, signB models Lightning.signBuffer (bytes to a zbase32
signature string), zdec models zbase32.decode. -/
def tokenFromTerms (cfgMediaHost : List Char) (signB : List Nat → List Char)
    (zdec : List Char → List Nat) (host muid : List Char) (ttl : Option Int)
    (pubkey : List Char) (meta : List (List Char × MetaVal)) (now : Nat) : List Char :=
  let theHost := jsOrStr host (jsOrStr cfgMediaHost [])
  let pubkeyBytes := hexDecode pubkey
  let pubkey64 := urlB64Encode pubkeyBytes
  let exp := ldatExp ttl now
  let ldat := startLDAT theHost muid pubkey64 exp meta
  if pubkey ≠ [] then
    let sig := signB ldat.bytes
    let sigBytes := zdec sig
    ldat.terms ++ '.' :: urlB64Encode sigBytes
  else ldat.terms

/-- The record produced by parseLDAT; a key is absent (none) when the
corresponding dot-field is missing or the empty string.  A present ts field
whose decoded buffer is empty yields NaN from parseInt('0x'), modelled as
some none. -/
structure ParsedLDAT where
  host : Option (List Char) := none
  muid : Option (List Char) := none
  pubkey : Option (List Char) := none
  ts : Option (Option Int) := none
  meta : Option (List (List Char × MetaVal)) := none
  sig : Option (List Char) := none
deriving DecidableEq

/-- a[i] turned into an option by JS truthiness (undefined or empty). -/
def ldatField (a : List (List Char)) (i : Nat) : Option (List Char) :=
  let s := a.getD i []
  if s = [] then none else some s

/-- The meta termKeys decoder: ascii ? deserializeMeta(ascii) : {}. -/
def parseMetaField (s : List Char) : Option (List (List Char × MetaVal)) :=
  let ascii := asciiDecode (b64Decode s)
  if ascii = [] then some [] else deserializeMeta ascii

/-- parseLDAT: split on '.'; each present (non-empty) field is
base64-decoded and run through its termKeys decoder.  A deserializeMeta /
decodeURIComponent exception aborts the whole parse (outer none). -/
def parseLDAT (ldat : List Char) : Option ParsedLDAT :=
  let a := splitOnChar '.' ldat
  let metaParsed : Option (Option (List (List Char × MetaVal))) :=
    match ldatField a 4 with
    | none => some none
    | some s =>
      match parseMetaField s with
      | none => none
      | some m => some (some m)
  match metaParsed with
  | none => none
  | some mv =>
    some
      { host := (ldatField a 0).map (fun s => asciiDecode (b64Decode s))
        muid := (ldatField a 1).map (fun s => urlB64Encode (b64Decode s))
        pubkey := (ldatField a 2).map (fun s => hexEncode (b64Decode s))
        ts := (ldatField a 3).map (fun s => jsParseInt ('0' :: 'x' :: hexEncode (b64Decode s)))
        meta := mv
        sig := (ldatField a 5).map (fun s => urlB64Encode (b64Decode s)) }

/-! ## Keysend (validation and request assembly) -/

def LND_KEYSEND_KEY : Nat := 5482373484
def SPHINX_CUSTOM_RECORD_KEY : Nat := 133773310
def MAX_MSG_LENGTH : Nat := 972

/-- The KeysendOpts interface. -/
structure KeysendOpts where
  amt : Nat
  dest : List Char
  data : Option (List Char) := none
  route_hint : Option (List Char) := none
  extra_tlv : List (List Char × List Char) := []
deriving DecidableEq

structure RouteHint where
  node_id : List Char
  chan_id : List Char
deriving DecidableEq

/-- The request assembled by keysend before any client is resolved.
dest_custom_records in JS-object insertion order: the preimage under
LND_KEYSEND_KEY, the caller's extra_tlv records, then the utf-8 payload
under SPHINX_CUSTOM_RECORD_KEY. -/
structure KeysendRequest where
  amt : Nat
  final_cltv_delta : Nat
  dest : List Nat
  dest_custom_records : List (List Char × List Nat)
  payment_hash : List Nat
  dest_features : List Nat
  route_hints : List RouteHint
deriving DecidableEq

/-- The validation and request-assembly phase of keysend — everything that
happens before loadLightning is first called.  A destination that is not
exactly 66 characters is rejected immediately with the invalid-pubkey
message, so no request is assembled and no client is resolved.  The random
preimage, sha256, and the configured minimum amount and cltv delta are
parameters. -/
def keysendBuild (opts : KeysendOpts) (preimage : List Nat)
    (sha256 : List Nat → List Nat) (minSatAmount finalCltvDelta : Nat) :
    Except (List Char) KeysendRequest :=
  if opts.dest.length ≠ 66 then .error ("keysend: invalid pubkey".toList)
  else
    let baseRecords := [(natToDecStr LND_KEYSEND_KEY, preimage)]
    let withTlv := baseRecords ++ opts.extra_tlv.map (fun kv => (kv.1, utf8Encode kv.2))
    let records :=
      match opts.data with
      | some d =>
        if d = [] then withTlv
        else withTlv ++ [(natToDecStr SPHINX_CUSTOM_RECORD_KEY, utf8Encode d)]
      | none => withTlv
    let hints :=
      match opts.route_hint with
      | some rh =>
        if rh.contains ':' then
          let arr := splitOnChar ':' rh
          [{ node_id := arr.getD 0 [], chan_id := arr.getD 1 [] }]
        else []
      | none => []
    .ok
      { amt := max opts.amt minSatAmount
        final_cltv_delta := finalCltvDelta
        dest := hexDecode opts.dest
        dest_custom_records := records
        payment_hash := sha256 preimage
        dest_features := [9]
        route_hints := hints }

/-! ## keysendMessage (the message-weaving protocol) -/

/-- The loop state of keysendMessage's weave: the success / fail flags and
the response of the most recent successful chunk. -/
structure WeaveState (R : Type) where
  success : Bool
  fail : Bool
  res : Option R

def weaveStep {E R : Type} (s : WeaveState R) (x : Except E R) : WeaveState R :=
  match x with
  | .ok r => { success := true, fail := s.fail, res := some r }
  | .error _ => { s with fail := true }

/-- The possible settlements of the keysendMessage promise. -/
inductive WeaveOutcome (E R : Type)
  | ok (r : R)
  | err (e : E)
  | stringPlz
  | weaveFail
deriving DecidableEq

/-- The sequence of chunk keysend options built by the weave loop for a
payload d: n = ceil(length/972) chunks, chunk i carrying the header
ts_i_n_ prepended to the i-th substring of width ceil(length/n); the
amount is the configured minimum except on the last chunk, which carries
the requested amount; the timestamp ts is captured once before the loop. -/
def weavePlan (opts : KeysendOpts) (d : List Char) (ts : Nat) (minSatAmount : Nat) :
    List KeysendOpts :=
  let n := (d.length + MAX_MSG_LENGTH - 1) / MAX_MSG_LENGTH
  (List.range n).map (fun i =>
    let spliti := (d.length + n - 1) / n
    let m := (d.drop (i * spliti)).take spliti
    let amt := if i = n - 1 then opts.amt else minSatAmount
    { opts with
      amt := amt
      data := some (natToDecStr ts ++ '_' :: natToDecStr i ++ '_' :: natToDecStr n ++ '_' :: m) })

/-- All keysend calls keysendMessage issues: none when the data check
rejects, the single direct call for a short payload, the weave sequence
otherwise. -/
def keysendMessageCalls (opts : KeysendOpts) (ts minSatAmount : Nat) : List KeysendOpts :=
  match opts.data with
  | none => []
  | some d =>
    if d = [] then []
    else if d.length < MAX_MSG_LENGTH then [opts]
    else weavePlan opts d ts minSatAmount

/-- keysendMessage, with the behaviour of each keysend call supplied as the
function call.  A short payload delegates directly (passing the rejection
through); otherwise every chunk is sent in order — a chunk failure only
records fail and continues — and the promise resolves with the last
response iff some chunk succeeded and none failed, rejecting with the
generic Error('fail') otherwise. -/
def keysendMessageRun {E R : Type} (opts : KeysendOpts) (ts minSatAmount : Nat)
    (call : KeysendOpts → Except E R) : WeaveOutcome E R :=
  match opts.data with
  | none => .stringPlz
  | some d =>
    if d = [] then .stringPlz
    else if d.length < MAX_MSG_LENGTH then
      match call opts with
      | .ok r => .ok r
      | .error e => .err e
    else
      let st := ((weavePlan opts d ts minSatAmount).map call).foldl weaveStep
        { success := false, fail := false, res := none }
      if st.success = true ∧ st.fail = false then
        match st.res with
        | some r => .ok r
        | none => .weaveFail
      else .weaveFail

/-! ## Paginated invoice listing -/

/-- One listInvoices reply: the returned first_index_offset (as parsed by
parseInt from its decimal string form) and the page of invoices. -/
structure InvoicesPage (I : Type) where
  first_index_offset : Nat
  invoices : List I

/-- The arguments of one listInvoices page request. -/
structure PageRequest where
  num_max_invoices : Nat
  index_offset : Nat
deriving DecidableEq

/-- paginateInvoices over a scripted sequence of page results consumed in
call order: none is an RPC error (the catch at that recursion level
returns the empty list), and a call past the end of the script is likewise
modelled as an error.  Returns the accumulated invoices together with the
trace of page requests issued. -/
def paginateInvoices {I : Type} (limit : Nat) (i : Nat) :
    List (Option (InvoicesPage I)) → List I × List PageRequest
  | [] => ([], [⟨limit, i⟩])
  | none :: _ => ([], [⟨limit, i⟩])
  | some p :: rest =>
    if 0 < p.first_index_offset then
      let t := paginateInvoices limit p.first_index_offset rest
      (p.invoices ++ t.1, ⟨limit, i⟩ :: t.2)
    else (p.invoices, [⟨limit, i⟩])

/-- listAllInvoices = paginateInvoices(40) starting at offset 0. -/
def listAllInvoices {I : Type} (pages : List (Option (InvoicesPage I))) : List I :=
  (paginateInvoices 40 0 pages).1

/-! ## Wallet lock -/

/-- The module-level lock state: the boolean and the absolute time (ms) at
which the pending setTimeout fires, if one is pending. -/
structure WalletLock where
  isLocked : Bool
  timeoutAt : Option Nat

/-- setLock: store the value, clear any previous timer, and schedule a
reset to false 1000*60*2 ms from now. -/
def setLock (value : Bool) (now : Nat) (_s : WalletLock) : WalletLock :=
  { isLocked := value, timeoutAt := some (now + 1000 * 60 * 2) }

/-- getLock observed at time now: the stored boolean, except that a timer
due at or before now has already reset it to false. -/
def getLockAt (now : Nat) (s : WalletLock) : Bool :=
  match s.timeoutAt with
  | some t => if t ≤ now then false else s.isLocked
  | none => s.isLocked

/-! ## verifyMessage, greenlight branch -/

structure VerifyResponse where
  valid : Bool
  pubkey : List Char
deriving DecidableEq

/-- Hex of the ascii domain separator "Lightning Signed Message:". -/
def signedMsgPrefixHex : List Char :=
  "4c696768746e696e67205369676e6564204d6573736167653a".toList

/-- The IS_GREENLIGHT branch of verifyMessage: zbase32-decode the
signature, split off the recovery byte, subtract the magic 31, double-sha
the prefixed message and recover the pubkey; any exception rejects, and a
successful recovery always resolves with valid := true.  zbase32.decode,
sha256 and secp256k1.recover are parameters (none models a throw). -/
def verifyMessageGL (zdec : List Char → Option (List Nat))
    (sha256 : List Nat → List Nat)
    (recover : List Nat → List Nat → Int → Option (List Nat))
    (msg sig : List Char) : Except (List Char) VerifyResponse :=
  match zdec sig with
  | none => .error ("zbase32 decode error".toList)
  | some [] => .error ("readUIntBE out of range".toList)
  | some (r0 :: sigBytes) =>
    let recid : Int := (r0 : Int) - 31
    let hash := sha256 (sha256 (hexDecode signedMsgPrefixHex ++ hexDecode msg))
    match recover hash sigBytes recid with
    | none => .error ("recover error".toList)
    | some pk => .ok { valid := true, pubkey := hexEncode pk }

/-! ## loadLightning (backend client cache) -/

inductive LnClient
  | proxyClient (owner : List Char)
  | lndClient
  | glClient
deriving DecidableEq

/-- The statically configured backend facts loadLightning consults. -/
structure LnConfig where
  hasProxy : Bool
  isGreenlight : Bool
  glUriOk : Bool
deriving DecidableEq

/-- loadLightning: returns the call's result together with the new value of
the module-level lightningClient cache.  proxyResolve models
loadProxyLightning: whether proxy resolution yields a client for the given
owner (the resolved client is bound to that owner); note that the proxy
branch assigns the cache before checking, so a failed resolution clears
the cache. -/
def loadLightning (cfg : LnConfig) (proxyResolve : List Char → Bool)
    (tryProxy : Bool) (ownerPubkey : Option (List Char)) (noCache : Bool)
    (cache : Option LnClient) : Except (List Char) LnClient × Option LnClient :=
  match tryProxy, cfg.hasProxy, ownerPubkey with
  | true, true, some owner =>
    if proxyResolve owner then (.ok (.proxyClient owner), some (.proxyClient owner))
    else (.error ("no lightning client".toList), none)
  | _, _, _ =>
    match cache, noCache with
    | some c, false => (.ok c, some c)
    | _, _ =>
      if cfg.isGreenlight then
        if cfg.glUriOk then (.ok .glClient, some .glClient)
        else (.error ("no lightning client".toList), cache)
      else (.ok .lndClient, some .lndClient)

/-! ## ascii_to_hexa and the ascii sign/verify wrappers -/

/-- ascii_to_hexa: Number(str.charCodeAt(n)).toString(16) per character,
joined with no delimiter (note a character code below 0x10 yields a single
hex digit, not a padded pair). -/
def ascii_to_hexa (str : List Char) : List Char :=
  (str.map (fun c => natToHexStr c.toNat)).foldr (· ++ ·) []

/-- signMessage: hex-decode the message and sign the buffer (signBuffer,
which is backend crypto, is a parameter). -/
def signMessageModel {S : Type} (signB : List Nat → S) (msg : List Char) : S :=
  signB (hexDecode msg)

/-- signAscii = signMessage(ascii_to_hexa(ascii)). -/
def signAsciiModel {S : Type} (signB : List Nat → S) (ascii : List Char) : S :=
  signMessageModel signB (ascii_to_hexa ascii)

/-- verifyAscii = verifyMessage(ascii_to_hexa(ascii), sig). -/
def verifyAsciiModel {V : Type} (verifyM : List Char → List Char → V)
    (ascii sig : List Char) : V :=
  verifyM (ascii_to_hexa ascii) sig

/-! ## Claim C5: LDAT expiry arithmetic -/

/-- C5: in tokenFromTerms, whenever the caller-supplied ttl is truthy
(nonzero, non-null) the expiry equals now plus exactly one year
(365*24*3600 seconds) and equals 0 when the ttl is zero or absent; the
ttl's numeric value is not otherwise used, so two truthy ttls produce the
same token. -/
theorem C5_ldat_expiry :
    (∀ (ttl : Option Int) (now : Nat), ttlTruthy ttl = true →
      ldatExp ttl now = now + 365 * 24 * 3600)
    ∧ (∀ (ttl : Option Int) (now : Nat), ttlTruthy ttl = false →
      ldatExp ttl now = 0)
    ∧ (∀ cfg signB zdec host muid (t1 t2 : Option Int) pubkey meta now,
        ttlTruthy t1 = true → ttlTruthy t2 = true →
        tokenFromTerms cfg signB zdec host muid t1 pubkey meta now =
          tokenFromTerms cfg signB zdec host muid t2 pubkey meta now) := by
  refine ⟨?_, ?_, ?_⟩
  · intro ttl now h
    simp only [ldatExp, h, if_pos]
  · intro ttl now h
    simp [ldatExp, h]
  · intro cfg signB zdec host muid t1 t2 pubkey meta now h1 h2
    simp [tokenFromTerms, ldatExp, h1, h2]

theorem C5_ldat_expiry_witness :
    ldatExp (some 5) 100 = 100 + 365 * 24 * 3600 ∧ ldatExp none 100 = 0 ∧
    tokenFromTerms [] (fun _ => []) (fun _ => []) [] [] (some 5) [] [] 0 =
      tokenFromTerms [] (fun _ => []) (fun _ => []) [] [] (some 9) [] [] 0 :=
  ⟨C5_ldat_expiry.1 (some 5) 100 (by decide),
   C5_ldat_expiry.2.1 none 100 (by decide),
   C5_ldat_expiry.2.2 [] (fun _ => []) (fun _ => []) [] [] (some 5) (some 9) [] [] 0
     (by decide) (by decide)⟩

/-! ## Claim C6: keysend destination validation -/

/-- C6: keysend rejects with the invalid-pubkey error exactly when the
destination string's length differs from 66, and this happens before a
request is constructed or a client resolved (keysendBuild models that
entire pre-network phase); length-66 destinations pass validation and a
request is assembled. -/
theorem C6_keysend_validation :
    (∀ (opts : KeysendOpts) preimage sha256 minSat cltv,
      opts.dest.length ≠ 66 →
      keysendBuild opts preimage sha256 minSat cltv =
        .error ("keysend: invalid pubkey".toList))
    ∧ (∀ (opts : KeysendOpts) preimage sha256 minSat cltv,
      opts.dest.length = 66 →
      ∃ req, keysendBuild opts preimage sha256 minSat cltv = .ok req) := by
  constructor
  · intro o p f m c h
    unfold keysendBuild
    rw [if_pos h]
  · intro o p f m c h
    unfold keysendBuild
    rw [if_neg (by omega)]
    exact ⟨_, rfl⟩

theorem C6_keysend_validation_witness :
    keysendBuild { amt := 1, dest := ['a', 'b'] } [] (fun _ => []) 3 40 =
      .error ("keysend: invalid pubkey".toList) ∧
    (∃ req, keysendBuild { amt := 1, dest := List.replicate 66 'a' } [] (fun _ => []) 3 40 =
      .ok req) :=
  ⟨C6_keysend_validation.1 _ [] (fun _ => []) 3 40 (by decide),
   C6_keysend_validation.2 _ [] (fun _ => []) 3 40 (by simp)⟩

/-! ## Claim C8: wallet lock expiry -/

/-- C8: after any setLock call, getLock returns the value just set for the
next 2 minutes, and once 1000*60*2 ms have elapsed since the most recent
setLock the lock reads false even if never explicitly cleared (the new
call clears the previous timer, so only the most recent call's timer is
pending). -/
theorem C8_wallet_lock :
    (∀ (v : Bool) (now t : Nat) (s : WalletLock),
      now ≤ t → t < now + 1000 * 60 * 2 → getLockAt t (setLock v now s) = v)
    ∧ (∀ (v : Bool) (now t : Nat) (s : WalletLock),
      now + 1000 * 60 * 2 ≤ t → getLockAt t (setLock v now s) = false) := by
  constructor
  · intro v now t s _ h2
    simp only [setLock, getLockAt]
    rw [if_neg (by omega)]
  · intro v now t s h
    simp only [setLock, getLockAt]
    rw [if_pos (by omega)]

theorem C8_wallet_lock_witness :
    getLockAt 1000 (setLock true 1000 ⟨false, none⟩) = true ∧
    getLockAt (1000 + 1000 * 60 * 2) (setLock true 1000 ⟨false, none⟩) = false :=
  ⟨C8_wallet_lock.1 true 1000 1000 ⟨false, none⟩ (by omega) (by omega),
   C8_wallet_lock.2 true 1000 (1000 + 1000 * 60 * 2) ⟨false, none⟩ (by omega)⟩

/-! ## Claim C9: greenlight verifyMessage never answers valid := false -/

/-- C9: in the greenlight branch of verifyMessage, every resolved response
has valid = true — validity is signalled only through which pubkey is
recovered — and whenever the zbase32 decode yields a nonempty byte string
and recovery succeeds, the promise resolves with valid := true and the
hex of the recovered pubkey. -/
theorem C9_verify_gl_always_valid :
    (∀ zdec sha256 recover msg sig r,
      verifyMessageGL zdec sha256 recover msg sig = .ok r → r.valid = true)
    ∧ (∀ zdec sha256 recover (msg sig : List Char) (b : Nat) rest pk,
      zdec sig = some (b :: rest) →
      recover (sha256 (sha256 (hexDecode signedMsgPrefixHex ++ hexDecode msg)))
          rest ((b : Int) - 31) = some pk →
      verifyMessageGL zdec sha256 recover msg sig =
        .ok { valid := true, pubkey := hexEncode pk }) := by
  constructor
  · intro zdec sha256 recover msg sig r h
    unfold verifyMessageGL at h
    cases hz : zdec sig with
    | none => rw [hz] at h; cases h
    | some l =>
      rw [hz] at h
      cases l with
      | nil => cases h
      | cons b rest =>
        dsimp only at h
        cases hr : recover (sha256 (sha256 (hexDecode signedMsgPrefixHex ++ hexDecode msg)))
            rest ((b : Int) - 31) with
        | none => rw [hr] at h; cases h
        | some pk =>
          rw [hr] at h
          cases h
          rfl
  · intro zdec sha256 recover msg sig b rest pk h1 h2
    unfold verifyMessageGL
    rw [h1]
    simp [h2]

theorem C9_verify_gl_always_valid_witness :
    ((verifyMessageGL (fun _ => some [32, 1, 2]) (fun l => l) (fun _ _ _ => some [2])
        [] []).map VerifyResponse.valid = Except.ok true) ∧
    verifyMessageGL (fun _ => some [32, 1, 2]) (fun l => l) (fun _ _ _ => some [2]) [] [] =
      .ok { valid := true, pubkey := hexEncode [2] } := by
  have h := C9_verify_gl_always_valid.2 (fun _ => some [32, 1, 2]) (fun l => l)
    (fun _ _ _ => some [2]) [] [] 32 [1, 2] [2] rfl rfl
  refine ⟨?_, h⟩
  have h2 := C9_verify_gl_always_valid.1 (fun _ => some [32, 1, 2]) (fun l => l)
    (fun _ _ _ => some [2]) [] [] { valid := true, pubkey := hexEncode [2] } h
  rw [h, Except.map, h2]

/-! ## Claim C10: proxy call poisons the module-level client cache -/

/-- C10: a successful proxy-path loadLightning call (tryProxy, proxy
configured, owner supplied, resolution succeeds) overwrites the
module-level cached client with that owner's proxy-bound client, and any
subsequent call without the proxy hint and without noCache returns the
cached client — hence the previous caller's proxy client, which is not a
client for the statically configured backend. -/
theorem C10_proxy_cache_overwrite :
    (∀ (cfg : LnConfig) proxyResolve owner cache,
      cfg.hasProxy = true → proxyResolve owner = true →
      loadLightning cfg proxyResolve true (some owner) false cache =
        (.ok (.proxyClient owner), some (.proxyClient owner)))
    ∧ (∀ (cfg : LnConfig) proxyResolve owner2 c,
      loadLightning cfg proxyResolve false owner2 false (some c) = (.ok c, some c))
    ∧ (∀ (cfg : LnConfig) proxyResolve owner owner2 cache,
      cfg.hasProxy = true → proxyResolve owner = true →
      loadLightning cfg proxyResolve false owner2 false
          (loadLightning cfg proxyResolve true (some owner) false cache).2 =
        (.ok (.proxyClient owner), some (.proxyClient owner)))
    ∧ (∀ owner, LnClient.proxyClient owner ≠ LnClient.lndClient ∧
        LnClient.proxyClient owner ≠ LnClient.glClient) := by
  have first : ∀ (cfg : LnConfig) proxyResolve owner cache,
      cfg.hasProxy = true → proxyResolve owner = true →
      loadLightning cfg proxyResolve true (some owner) false cache =
        (.ok (.proxyClient owner), some (.proxyClient owner)) := by
    intro cfg pr owner cache h1 h2
    obtain ⟨hp, g, u⟩ := cfg
    cases h1
    simp [loadLightning, h2]
  refine ⟨first, ?_, ?_, ?_⟩
  · intro cfg pr owner2 c
    rfl
  · intro cfg pr owner owner2 cache h1 h2
    rw [first cfg pr owner cache h1 h2]
    rfl
  · intro owner
    exact ⟨by simp, by simp⟩

theorem C10_proxy_cache_overwrite_witness :
    loadLightning ⟨true, false, false⟩ (fun _ => true) true (some ['a']) false none =
      (.ok (.proxyClient ['a']), some (.proxyClient ['a'])) ∧
    loadLightning ⟨true, false, false⟩ (fun _ => true) false none false
        (loadLightning ⟨true, false, false⟩ (fun _ => true) true (some ['a']) false none).2 =
      (.ok (.proxyClient ['a']), some (.proxyClient ['a'])) :=
  ⟨C10_proxy_cache_overwrite.1 ⟨true, false, false⟩ (fun _ => true) ['a'] none rfl rfl,
   C10_proxy_cache_overwrite.2.2.1 ⟨true, false, false⟩ (fun _ => true) ['a'] none none rfl rfl⟩

/-! ## Claim C4: keysendMessage chunking -/

theorem keysendMessageCalls_weave (opts : KeysendOpts) (d : List Char) (ts m : Nat)
    (h : opts.data = some d) (hlen : MAX_MSG_LENGTH ≤ d.length) :
    keysendMessageCalls opts ts m = weavePlan opts d ts m := by
  unfold keysendMessageCalls
  rw [h]
  dsimp only
  rw [if_neg (by intro he; subst he; simp [MAX_MSG_LENGTH] at hlen), if_neg (by omega)]

/-- C4 counterexample: the empty payload is shorter than 972 characters but
keysendMessage rejects it with 'string plz' and issues no keysend call at
all, instead of delegating it to a single keysend. -/
theorem C4_chunking_cex :
    keysendMessageCalls { amt := 5, dest := [], data := some [] } 7 3 = [] ∧
    keysendMessageRun { amt := 5, dest := [], data := some [] } 7 3
      (fun _ => (Except.ok 0 : Except Unit Nat)) = .stringPlz ∧
    ([] : List KeysendOpts) ≠ [{ amt := 5, dest := [], data := some [] }] := by
  refine ⟨rfl, rfl, by simp⟩

/-- C4 (amended: nonempty payloads): keysendMessage delegates every
nonempty payload shorter than 972 to a single keysend with the payload
unmodified; a payload of exactly 972 goes through the weave as a single
keysend call; a payload of 973 splits into exactly 2 chunks whose headers
share the one timestamp captured before the loop and carry the correct
chunk_index and chunk_count; a payload of length k*972 splits into exactly
ceil(length/972) = k chunks. -/
theorem C4_chunking :
    (∀ (opts : KeysendOpts) d ts minSat, opts.data = some d → d ≠ [] →
      d.length < MAX_MSG_LENGTH → keysendMessageCalls opts ts minSat = [opts])
    ∧ (∀ (opts : KeysendOpts) d ts minSat, opts.data = some d → d.length = 972 →
      (keysendMessageCalls opts ts minSat).length = 1)
    ∧ (∀ (opts : KeysendOpts) d ts minSat, opts.data = some d → d.length = 973 →
      keysendMessageCalls opts ts minSat =
        [{ opts with
             amt := minSat
             data := some (natToDecStr ts ++ '_' :: natToDecStr 0 ++ '_' ::
               natToDecStr 2 ++ '_' :: d.take 487) },
         { opts with
             data := some (natToDecStr ts ++ '_' :: natToDecStr 1 ++ '_' ::
               natToDecStr 2 ++ '_' :: (d.drop 487).take 487) }])
    ∧ (∀ (opts : KeysendOpts) d ts minSat k, opts.data = some d → 1 ≤ k →
      d.length = k * 972 →
      (keysendMessageCalls opts ts minSat).length = (d.length + 971) / 972 ∧
      (keysendMessageCalls opts ts minSat).length = k) := by
  refine ⟨?_, ?_, ?_, ?_⟩
  · intro opts d ts minSat h hne hlt
    unfold keysendMessageCalls
    rw [h]
    dsimp only
    rw [if_neg hne, if_pos hlt]
  · intro opts d ts minSat h hl
    rw [keysendMessageCalls_weave opts d ts minSat h (by unfold MAX_MSG_LENGTH; omega)]
    simp only [weavePlan, List.length_map, List.length_range, hl, MAX_MSG_LENGTH]
  · intro opts d ts minSat h hl
    rw [keysendMessageCalls_weave opts d ts minSat h (by unfold MAX_MSG_LENGTH; omega)]
    have hn : (d.length + MAX_MSG_LENGTH - 1) / MAX_MSG_LENGTH = 2 := by
      simp [MAX_MSG_LENGTH, hl]
    unfold weavePlan
    rw [hn, hl]
    simp [List.range_succ]
  · intro opts d ts minSat k h hk hl
    rw [keysendMessageCalls_weave opts d ts minSat h (by unfold MAX_MSG_LENGTH; nlinarith)]
    have hn : (d.length + MAX_MSG_LENGTH - 1) / MAX_MSG_LENGTH = k := by
      unfold MAX_MSG_LENGTH
      rw [hl, show k * 972 + 972 - 1 = 971 + 972 * k by omega,
        Nat.add_mul_div_left _ _ (by norm_num)]
      norm_num
    constructor
    · simp only [weavePlan, List.length_map, List.length_range, hn, MAX_MSG_LENGTH, hl]
      omega
    · simp [weavePlan, hn]

theorem C4_chunking_witness :
    keysendMessageCalls { amt := 5, dest := [], data := some ['a'] } 7 3 =
      [{ amt := 5, dest := [], data := some ['a'] }] ∧
    (keysendMessageCalls { amt := 5, dest := [], data := some (List.replicate 972 'a') } 7 3).length = 1 ∧
    keysendMessageCalls { amt := 5, dest := [], data := some (List.replicate 973 'a') } 7 3 =
      [{ amt := 3, dest := [],
         data := some (natToDecStr 7 ++ '_' :: natToDecStr 0 ++ '_' :: natToDecStr 2 ++ '_' ::
           (List.replicate 973 'a').take 487) },
       { amt := 5, dest := [],
         data := some (natToDecStr 7 ++ '_' :: natToDecStr 1 ++ '_' :: natToDecStr 2 ++ '_' ::
           ((List.replicate 973 'a').drop 487).take 487) }] ∧
    (keysendMessageCalls { amt := 5, dest := [], data := some (List.replicate (4 * 972) 'a') } 7 3).length = 4 :=
  ⟨C4_chunking.1 { amt := 5, dest := [], data := some ['a'] } ['a'] 7 3 rfl
     (by decide) (by decide),
   C4_chunking.2.1 { amt := 5, dest := [], data := some (List.replicate 972 'a') }
     (List.replicate 972 'a') 7 3 rfl (by rw [List.length_replicate]),
   C4_chunking.2.2.1 { amt := 5, dest := [], data := some (List.replicate 973 'a') }
     (List.replicate 973 'a') 7 3 rfl (by rw [List.length_replicate]),
   (C4_chunking.2.2.2 { amt := 5, dest := [], data := some (List.replicate (4 * 972) 'a') }
     (List.replicate (4 * 972) 'a') 7 3 4 rfl (by norm_num) (by rw [List.length_replicate])).2⟩

/-! ## Claim C1: weave aggregate result -/

def exceptIsOk {E R : Type} : Except E R → Bool
  | .ok _ => true
  | .error _ => false

def exceptIsErr {E R : Type} : Except E R → Bool
  | .ok _ => false
  | .error _ => true

theorem weaveFoldl_success {E R : Type} (l : List (Except E R)) (init : WeaveState R) :
    (l.foldl weaveStep init).success = (init.success || l.any exceptIsOk) := by
  induction l generalizing init with
  | nil => simp
  | cons x t ih =>
    rw [List.foldl_cons, ih]
    cases x <;> simp [weaveStep, exceptIsOk]

theorem weaveFoldl_fail {E R : Type} (l : List (Except E R)) (init : WeaveState R) :
    (l.foldl weaveStep init).fail = (init.fail || l.any exceptIsErr) := by
  induction l generalizing init with
  | nil => simp
  | cons x t ih =>
    rw [List.foldl_cons, ih]
    cases x <;> simp [weaveStep, exceptIsErr, Bool.or_assoc]

theorem weaveFoldl_res_isSome {E R : Type} (l : List (Except E R)) (init : WeaveState R)
    (h : init.success = true → init.res.isSome = true) :
    (l.foldl weaveStep init).success = true → (l.foldl weaveStep init).res.isSome = true := by
  induction l generalizing init with
  | nil => exact h
  | cons x t ih =>
    rw [List.foldl_cons]
    refine ih _ ?_
    cases x <;> simp [weaveStep] <;> exact fun hs => h hs

theorem getLastSomeMem {α : Type} : ∀ (l : List α) (a : α), l.getLast? = some a → a ∈ l
  | [], _, h => by simp at h
  | [x], a, h => by
    simp only [List.getLast?_singleton, Option.some_inj] at h
    simp [h]
  | x :: y :: t, a, h => by
    rw [List.getLast?_cons_cons] at h
    exact List.mem_cons_of_mem x (getLastSomeMem (y :: t) a h)

theorem weaveFoldl_res_last {E R : Type} (l : List (Except E R)) (init : WeaveState R)
    (r : R) (h : l.getLast? = some (.ok r)) :
    (l.foldl weaveStep init).res = some r := by
  induction l generalizing init with
  | nil => simp at h
  | cons x t ih =>
    cases t with
    | nil =>
      simp only [List.getLast?_singleton, Option.some_inj] at h
      subst h
      simp [weaveStep]
    | cons y t2 =>
      rw [List.foldl_cons]
      exact ih _ (by rw [← h]; rfl)

theorem keysendMessageRun_weave {E R : Type} (opts : KeysendOpts) (d : List Char)
    (ts m : Nat) (call : KeysendOpts → Except E R)
    (h : opts.data = some d) (hlen : MAX_MSG_LENGTH ≤ d.length) :
    keysendMessageRun opts ts m call =
      (if (((weavePlan opts d ts m).map call).foldl weaveStep ⟨false, false, none⟩).success = true ∧
          (((weavePlan opts d ts m).map call).foldl weaveStep ⟨false, false, none⟩).fail = false then
        match (((weavePlan opts d ts m).map call).foldl weaveStep ⟨false, false, none⟩).res with
        | some r => .ok r
        | none => .weaveFail
      else .weaveFail) := by
  unfold keysendMessageRun
  rw [h]
  dsimp only
  rw [if_neg (by intro he; subst he; simp [MAX_MSG_LENGTH] at hlen), if_neg (by omega)]

/-- C1: for a payload long enough to be woven, keysendMessage resolves
(with some response) iff at least one chunk keysend reported success and
no chunk reported failure; when no chunk fails it resolves with the last
chunk's response; and any chunk failure — at any position, even though
the loop still issues every remaining chunk — makes the overall result
the generic weave rejection. -/
theorem C1_weave_aggregate :
    (∀ {E R : Type} (opts : KeysendOpts) (d : List Char) (ts minSat : Nat)
      (call : KeysendOpts → Except E R),
      opts.data = some d → MAX_MSG_LENGTH ≤ d.length →
      ((∃ r, keysendMessageRun opts ts minSat call = .ok r) ↔
        (((weavePlan opts d ts minSat).map call).any exceptIsOk = true ∧
          ((weavePlan opts d ts minSat).map call).any exceptIsErr = false)))
    ∧ (∀ {E R : Type} (opts : KeysendOpts) d ts minSat (call : KeysendOpts → Except E R)
      (r : R), opts.data = some d → MAX_MSG_LENGTH ≤ d.length →
      ((weavePlan opts d ts minSat).map call).getLast? = some (.ok r) →
      ((weavePlan opts d ts minSat).map call).any exceptIsErr = false →
      keysendMessageRun opts ts minSat call = .ok r)
    ∧ (∀ {E R : Type} (opts : KeysendOpts) d ts minSat (call : KeysendOpts → Except E R)
      (pre post : List (Except E R)) (e : E), opts.data = some d →
      MAX_MSG_LENGTH ≤ d.length →
      (weavePlan opts d ts minSat).map call = pre ++ .error e :: post →
      keysendMessageRun opts ts minSat call = .weaveFail) := by
  refine ⟨?_, ?_, ?_⟩
  · intro E R opts d ts minSat call h hlen
    rw [keysendMessageRun_weave opts d ts minSat call h hlen]
    constructor
    · rintro ⟨r, hr⟩
      by_cases hc :
          (((weavePlan opts d ts minSat).map call).foldl weaveStep ⟨false, false, none⟩).success = true ∧
          (((weavePlan opts d ts minSat).map call).foldl weaveStep ⟨false, false, none⟩).fail = false
      · have hs := hc.1
        have hf := hc.2
        rw [weaveFoldl_success] at hs
        rw [weaveFoldl_fail] at hf
        simp only [Bool.false_or] at hs hf
        exact ⟨hs, hf⟩
      · rw [if_neg hc] at hr
        cases hr
    · rintro ⟨hs, hf⟩
      have hc :
          (((weavePlan opts d ts minSat).map call).foldl weaveStep ⟨false, false, none⟩).success = true ∧
          (((weavePlan opts d ts minSat).map call).foldl weaveStep ⟨false, false, none⟩).fail = false := by
        rw [weaveFoldl_success, weaveFoldl_fail]
        simp [hs, hf]
      rw [if_pos hc]
      have hsome := weaveFoldl_res_isSome (((weavePlan opts d ts minSat).map call))
        ⟨false, false, none⟩ (by simp) hc.1
      cases hres : (((weavePlan opts d ts minSat).map call).foldl weaveStep
          ⟨false, false, none⟩).res with
      | none => rw [hres] at hsome; simp at hsome
      | some r => exact ⟨r, rfl⟩
  · intro E R opts d ts minSat call r h hlen hlast hf
    rw [keysendMessageRun_weave opts d ts minSat call h hlen]
    have hmem : (Except.ok r : Except E R) ∈ (weavePlan opts d ts minSat).map call :=
      getLastSomeMem _ _ hlast
    have hc :
        (((weavePlan opts d ts minSat).map call).foldl weaveStep ⟨false, false, none⟩).success = true ∧
        (((weavePlan opts d ts minSat).map call).foldl weaveStep ⟨false, false, none⟩).fail = false := by
      rw [weaveFoldl_success, weaveFoldl_fail]
      constructor
      · simp only [Bool.false_or]
        exact List.any_eq_true.mpr ⟨_, hmem, rfl⟩
      · simp [hf]
    rw [if_pos hc, weaveFoldl_res_last _ _ r hlast]
  · intro E R opts d ts minSat call pre post e h hlen heq
    rw [keysendMessageRun_weave opts d ts minSat call h hlen]
    have hf : (((weavePlan opts d ts minSat).map call).foldl weaveStep
        ⟨false, false, none⟩).fail = true := by
      rw [weaveFoldl_fail, heq]
      simp [exceptIsErr]
    rw [if_neg (by rintro ⟨_, hc2⟩; rw [hf] at hc2; cases hc2)]

theorem C1_weave_aggregate_witness :
    ((∃ r, keysendMessageRun { amt := 5, dest := [], data := some (List.replicate 972 'a') } 7 3
        (fun _ => (Except.ok 0 : Except Unit Nat)) = .ok r) ↔
      (((weavePlan { amt := 5, dest := [], data := some (List.replicate 972 'a') }
            (List.replicate 972 'a') 7 3).map
          (fun _ => (Except.ok 0 : Except Unit Nat))).any exceptIsOk = true ∧
        ((weavePlan { amt := 5, dest := [], data := some (List.replicate 972 'a') }
            (List.replicate 972 'a') 7 3).map
          (fun _ => (Except.ok 0 : Except Unit Nat))).any exceptIsErr = false)) ∧
    keysendMessageRun { amt := 5, dest := [], data := some (List.replicate 972 'a') } 7 3
      (fun _ => (Except.ok 0 : Except Unit Nat)) = .ok 0 ∧
    keysendMessageRun { amt := 5, dest := [], data := some (List.replicate 972 'a') } 7 3
      (fun _ => (Except.error () : Except Unit Nat)) = .weaveFail :=
  ⟨C1_weave_aggregate.1 { amt := 5, dest := [], data := some (List.replicate 972 'a') }
     (List.replicate 972 'a') 7 3 (fun _ => (Except.ok 0 : Except Unit Nat)) rfl (by decide),
   C1_weave_aggregate.2.1 { amt := 5, dest := [], data := some (List.replicate 972 'a') }
     (List.replicate 972 'a') 7 3 (fun _ => (Except.ok 0 : Except Unit Nat)) 0 rfl
     (by decide) rfl rfl,
   C1_weave_aggregate.2.2 { amt := 5, dest := [], data := some (List.replicate 972 'a') }
     (List.replicate 972 'a') 7 3 (fun _ => (Except.error () : Except Unit Nat)) [] [] () rfl
     (by decide) rfl⟩

/-! ## Claim C3: invoice pagination -/

theorem paginate_prefix_error {I : Type} (limit : Nat) :
    ∀ (goods : List (InvoicesPage I)) (i : Nat) (rest : List (Option (InvoicesPage I))),
      (∀ g ∈ goods, 0 < g.first_index_offset) →
      (paginateInvoices limit i (goods.map some ++ none :: rest)).1 =
        (goods.map InvoicesPage.invoices).flatten := by
  intro goods
  induction goods with
  | nil => intro i rest _; rfl
  | cons g t ih =>
    intro i rest hall
    simp only [List.map_cons, List.cons_append]
    unfold paginateInvoices
    rw [if_pos (hall g (by simp))]
    dsimp only
    rw [ih g.first_index_offset rest (fun x hx => hall x (by simp [hx])), List.flatten_cons]

/-- C3: list_all_invoices requests pages of size 40, walking the returned
first_index_offset, terminates on offset 0, and concatenates pages in
order — the spec's two-page example yields exactly the 52 items in
first-then-second page order with the request trace [(40,0), (40,40)];
and an error on any page makes that recursion level return [], so the
overall result is exactly the items of all earlier successful pages
(e.g. the 40 page-1 items on a page-2 error) instead of a failure. -/
theorem C3_invoice_pagination :
    (∀ (I : Type) (p1 p2 : List I), p1.length = 40 → p2.length = 12 →
      listAllInvoices [some ⟨40, p1⟩, some ⟨0, p2⟩] = p1 ++ p2 ∧
      (listAllInvoices [some ⟨40, p1⟩, some ⟨0, p2⟩]).length = 52 ∧
      (paginateInvoices 40 0 [some ⟨40, p1⟩, some ⟨0, p2⟩]).2 = [⟨40, 0⟩, ⟨40, 40⟩])
    ∧ (∀ (I : Type) (p1 : List I), p1.length = 40 →
      listAllInvoices [some ⟨40, p1⟩, none] = p1)
    ∧ (∀ (I : Type) (goods : List (InvoicesPage I)) (rest : List (Option (InvoicesPage I))),
      (∀ g ∈ goods, 0 < g.first_index_offset) →
      listAllInvoices (goods.map some ++ none :: rest) =
        (goods.map InvoicesPage.invoices).flatten) := by
  refine ⟨?_, ?_, ?_⟩
  · intro I p1 p2 h1 h2
    have e : listAllInvoices [some ⟨40, p1⟩, some ⟨0, p2⟩] = p1 ++ p2 := rfl
    refine ⟨e, ?_, rfl⟩
    rw [e, List.length_append, h1, h2]
  · intro I p1 h1
    show p1 ++ [] = p1
    simp
  · intro I goods rest hall
    exact paginate_prefix_error 40 goods 0 rest hall

theorem C3_invoice_pagination_witness :
    listAllInvoices [some ⟨40, List.range 40⟩, some ⟨0, List.range 12⟩] =
      List.range 40 ++ List.range 12 ∧
    (listAllInvoices [some ⟨40, List.range 40⟩, some ⟨0, List.range 12⟩]).length = 52 ∧
    (paginateInvoices 40 0 [some ⟨40, List.range 40⟩, some ⟨0, List.range 12⟩]).2 =
      [⟨40, 0⟩, ⟨40, 40⟩] ∧
    listAllInvoices [some ⟨40, List.range 40⟩, none] = List.range 40 ∧
    listAllInvoices ([(⟨40, List.range 40⟩ : InvoicesPage Nat)].map some ++ none :: []) =
      ([(⟨40, List.range 40⟩ : InvoicesPage Nat)].map InvoicesPage.invoices).flatten := by
  have h1 := C3_invoice_pagination.1 Nat (List.range 40) (List.range 12)
    (by rw [List.length_range]) (by rw [List.length_range])
  exact ⟨h1.1, h1.2.1, h1.2.2,
    C3_invoice_pagination.2.1 Nat (List.range 40) (by rw [List.length_range]),
    C3_invoice_pagination.2.2 Nat [⟨40, List.range 40⟩] []
      (by intro g hg; simp only [List.mem_singleton] at hg; subst hg; decide)⟩

/-! ## Claim C7: the ascii-to-hex transcoding of the ascii wrappers -/

theorem natToHexAux_zero (f : Nat) : natToHexAux f 0 = [] := by cases f <;> rfl

theorem natToHexAux_single (f m : Nat) (h1 : m ≠ 0) (h2 : m < 16) :
    natToHexAux (f + 1) m = [hexDigitChar m] := by
  unfold natToHexAux
  rw [if_neg h1, Nat.div_eq_of_lt h2, natToHexAux_zero, Nat.mod_eq_of_lt h2]
  rfl

theorem natToHexStr_pair (n : Nat) (h1 : 16 ≤ n) (h2 : n < 256) :
    natToHexStr n = [hexDigitChar (n / 16), hexDigitChar (n % 16)] := by
  obtain ⟨f, hf⟩ : ∃ f, n = f + 2 := ⟨n - 2, by omega⟩
  subst hf
  unfold natToHexStr
  rw [if_neg (by omega)]
  show natToHexAux (f + 1 + 1) (f + 2) = _
  unfold natToHexAux
  rw [if_neg (by omega)]
  rw [natToHexAux_single f ((f + 2) / 16) (by omega) (by omega)]
  rfl

theorem hexCharVal_hexDigitChar : ∀ v : Fin 16, hexCharVal (hexDigitChar v.val) = some v.val := by
  decide

/-- C7 counterexample: the newline character (ASCII code 10) is transcoded
to the single hex digit a, not a two-character pair, because
Number.toString(16) does not zero-pad. -/
theorem C7_ascii_transcoding_cex :
    ascii_to_hexa [Char.ofNat 10] = ['a'] ∧ (Char.ofNat 10).toNat < 128 ∧
    (ascii_to_hexa [Char.ofNat 10]).length = 1 := by decide

/-- C7 (amended: characters with code at least 0x10): for every ascii
string of characters with code in [16, 128) — all printable ascii — the
wrappers transcode each character to exactly one two-character hex pair
with no delimiter (so the decoded bytes are exactly the character codes),
and signAscii / verifyAscii delegate to the byte-level operations on that
hex transcoding. -/
theorem C7_ascii_transcoding :
    (∀ s : List Char, (∀ c ∈ s, 16 ≤ c.toNat ∧ c.toNat < 128) →
      ascii_to_hexa s =
        s.foldr (fun c acc => hexDigitChar (c.toNat / 16) :: hexDigitChar (c.toNat % 16) :: acc)
          [] ∧
      (ascii_to_hexa s).length = 2 * s.length ∧
      hexDecode (ascii_to_hexa s) = s.map Char.toNat)
    ∧ (∀ (S : Type) (signB : List Nat → S) (ascii : List Char),
      signAsciiModel signB ascii = signB (hexDecode (ascii_to_hexa ascii)))
    ∧ (∀ (V : Type) (verifyM : List Char → List Char → V) (ascii sig : List Char),
      verifyAsciiModel verifyM ascii sig = verifyM (ascii_to_hexa ascii) sig) := by
  refine ⟨?_, fun S sb a => rfl, fun V vm a sg => rfl⟩
  intro s hs
  induction s with
  | nil => exact ⟨rfl, rfl, rfl⟩
  | cons c t ih =>
    have hc := hs c (by simp)
    have ht := ih (fun x hx => hs x (by simp [hx]))
    have hpair := natToHexStr_pair c.toNat (by omega) (by omega)
    have e1 : ascii_to_hexa (c :: t) = natToHexStr c.toNat ++ ascii_to_hexa t := rfl
    have hv1 : hexCharVal (hexDigitChar (c.toNat / 16)) = some (c.toNat / 16) :=
      hexCharVal_hexDigitChar ⟨c.toNat / 16, by omega⟩
    have hv2 : hexCharVal (hexDigitChar (c.toNat % 16)) = some (c.toNat % 16) :=
      hexCharVal_hexDigitChar ⟨c.toNat % 16, by omega⟩
    refine ⟨?_, ?_, ?_⟩
    · rw [List.foldr_cons, e1, hpair, ht.1]
      rfl
    · rw [e1, List.length_append, hpair, ht.2.1]
      simp only [List.length_cons, List.length_nil, List.length_cons]
      ring
    · rw [e1, hpair]
      show hexDecode (hexDigitChar (c.toNat / 16) :: hexDigitChar (c.toNat % 16) ::
        ascii_to_hexa t) = _
      unfold hexDecode
      rw [hv1, hv2]
      dsimp only
      rw [ht.2.2]
      have harith : c.toNat / 16 * 16 + c.toNat % 16 = c.toNat := by omega
      rw [harith, List.map_cons]

theorem C7_ascii_transcoding_witness :
    ascii_to_hexa ("ab".toList) =
      ("ab".toList).foldr
        (fun c acc => hexDigitChar (c.toNat / 16) :: hexDigitChar (c.toNat % 16) :: acc) [] ∧
    (ascii_to_hexa ("ab".toList)).length = 2 * ("ab".toList).length ∧
    hexDecode (ascii_to_hexa ("ab".toList)) = ("ab".toList).map Char.toNat ∧
    signAsciiModel (fun bs => bs) ("ab".toList) =
      (fun bs => bs) (hexDecode (ascii_to_hexa ("ab".toList))) ∧
    verifyAsciiModel (fun m sg => (m, sg)) ("ab".toList) [] =
      (fun m sg => (m, sg)) (ascii_to_hexa ("ab".toList)) [] := by
  have h1 := C7_ascii_transcoding.1 ("ab".toList) (by decide)
  exact ⟨h1.1, h1.2.1, h1.2.2,
    C7_ascii_transcoding.2.1 (List Nat) (fun bs => bs) ("ab".toList),
    C7_ascii_transcoding.2.2 (List Char × List Char) (fun m sg => (m, sg)) ("ab".toList) []⟩

/-! ## Claim C2: LDAT round trip -/

/-- C2 counterexample: with the metadata value 1500x1300 (the dim value of
the repository's own testLDAT terms) the parsed token carries
meta.dim = 1500 (a number, the value of parseInt('1500x1300')), not the
original string, so parse is not the exact inverse of build on the
metadata field. -/
theorem C2_ldat_roundtrip_cex :
    (parseLDAT (tokenFromTerms [] (fun _ => []) (fun _ => []) ("h".toList)
        (urlB64Encode [1]) none [] [(("dim").toList, MetaVal.str ("1500x1300".toList))]
        0)).map ParsedLDAT.meta =
      some (some [(("dim").toList, MetaVal.num 1500)]) ∧
    MetaVal.num 1500 ≠ MetaVal.str ("1500x1300".toList) := by decide

/-! ### Hex codec lemmas -/

theorem hexDecode_hexEncode : ∀ (bs : List Nat), (∀ b ∈ bs, b < 256) →
    hexDecode (hexEncode bs) = bs
  | [], _ => rfl
  | b :: rest, h => by
    have hb : b < 256 := h b (by simp)
    have h1 : hexCharVal (hexDigitChar (b / 16)) = some (b / 16) :=
      hexCharVal_hexDigitChar ⟨b / 16, by omega⟩
    have h2 : hexCharVal (hexDigitChar (b % 16)) = some (b % 16) :=
      hexCharVal_hexDigitChar ⟨b % 16, by omega⟩
    show hexDecode (hexDigitChar (b / 16) :: hexDigitChar (b % 16) :: hexEncode rest) = b :: rest
    unfold hexDecode
    rw [h1, h2]
    dsimp only
    rw [hexDecode_hexEncode rest (fun x hx => h x (by simp [hx]))]
    congr 1
    omega

theorem lowerHex_decomp (c : Char) (h : isLowerHex c = true) :
    ∃ v, v < 16 ∧ hexCharVal c = some v ∧ hexDigitChar v = c := by
  simp only [isLowerHex, Bool.or_eq_true, Bool.and_eq_true, decide_eq_true_eq] at h
  rcases h with ⟨h1, h2⟩ | ⟨h1, h2⟩
  · refine ⟨c.toNat - 48, by omega, ?_, ?_⟩
    · unfold hexCharVal
      rw [if_pos ⟨h1, h2⟩]
    · unfold hexDigitChar
      rw [if_pos (by omega), show 48 + (c.toNat - 48) = c.toNat by omega, Char.ofNat_toNat]
  · refine ⟨c.toNat - 87, by omega, ?_, ?_⟩
    · unfold hexCharVal
      rw [if_neg (by omega), if_pos ⟨h1, h2⟩]
    · unfold hexDigitChar
      rw [if_neg (by omega), show 87 + (c.toNat - 87) = c.toNat by omega, Char.ofNat_toNat]

theorem hexEncode_hexDecode : ∀ (s : List Char), (∀ c ∈ s, isLowerHex c = true) →
    s.length % 2 = 0 → hexEncode (hexDecode s) = s
  | [], _, _ => rfl
  | [c], _, hlen => by simp at hlen
  | c1 :: c2 :: rest, hall, hlen => by
    obtain ⟨v1, hv1lt, hv1, hd1⟩ := lowerHex_decomp c1 (hall c1 (by simp))
    obtain ⟨v2, hv2lt, hv2, hd2⟩ := lowerHex_decomp c2 (hall c2 (by simp))
    show hexEncode (hexDecode (c1 :: c2 :: rest)) = _
    unfold hexDecode
    rw [hv1, hv2]
    dsimp only
    show hexDigitChar ((v1 * 16 + v2) / 16) :: hexDigitChar ((v1 * 16 + v2) % 16) ::
        hexEncode (hexDecode rest) = _
    rw [hexEncode_hexDecode rest (fun x hx => hall x (by simp [hx])) (by simp at hlen ⊢; omega),
      show (v1 * 16 + v2) / 16 = v1 by omega, show (v1 * 16 + v2) % 16 = v2 by omega, hd1, hd2]

theorem hexCharVal_lt (c : Char) (v : Nat) (h : hexCharVal c = some v) : v < 16 := by
  unfold hexCharVal at h
  split at h
  · rename_i hr
    injection h with h
    omega
  · split at h
    · rename_i hr
      injection h with h
      omega
    · split at h
      · rename_i hr
        injection h with h
        omega
      · cases h

theorem hexDecode_lt : ∀ (s : List Char), ∀ b ∈ hexDecode s, b < 256
  | [], b, hb => by simp [hexDecode] at hb
  | [c], b, hb => by simp [hexDecode] at hb
  | c1 :: c2 :: rest, b, hb => by
    unfold hexDecode at hb
    cases h1 : hexCharVal c1 with
    | none => rw [h1] at hb; simp at hb
    | some v1 =>
      cases h2 : hexCharVal c2 with
      | none => rw [h1, h2] at hb; simp at hb
      | some v2 =>
        rw [h1, h2] at hb
        simp only [List.mem_cons] at hb
        rcases hb with rfl | hb
        · have e1 := hexCharVal_lt c1 v1 h1
          have e2 := hexCharVal_lt c2 v2 h2
          omega
        · exact hexDecode_lt rest b hb

/-! ### Number rendering lemmas -/

theorem isLowerHex_hexDigitChar : ∀ v : Fin 16, isLowerHex (hexDigitChar v.val) = true := by
  decide

theorem natToHexAux_all_lower :
    ∀ (f n : Nat), n ≤ f → ∀ c ∈ natToHexAux f n, isLowerHex c = true := by
  intro f
  induction f with
  | zero => intro n _ c hc; simp [natToHexAux] at hc
  | succ f ih =>
    intro n hn c hc
    unfold natToHexAux at hc
    by_cases h0 : n = 0
    · rw [if_pos h0] at hc; simp at hc
    · rw [if_neg h0] at hc
      rcases List.mem_append.mp hc with hc | hc
      · exact ih (n / 16) (by omega) c hc
      · simp only [List.mem_singleton] at hc
        subst hc
        exact isLowerHex_hexDigitChar ⟨n % 16, by omega⟩

theorem natToHexStr_all_lower (n : Nat) : ∀ c ∈ natToHexStr n, isLowerHex c = true := by
  unfold natToHexStr
  by_cases h0 : n = 0
  · rw [if_pos h0]; decide
  · rw [if_neg h0]; exact natToHexAux_all_lower n n (by omega)

theorem natToHexAux_ne_nil (f n : Nat) (h0 : n ≠ 0) (hf : n ≤ f) : natToHexAux f n ≠ [] := by
  cases f with
  | zero => omega
  | succ f =>
    unfold natToHexAux
    rw [if_neg h0]
    simp

theorem natToHexStr_ne_nil (n : Nat) : natToHexStr n ≠ [] := by
  unfold natToHexStr
  by_cases h0 : n = 0
  · rw [if_pos h0]; simp
  · rw [if_neg h0]; exact natToHexAux_ne_nil n n h0 (by omega)

theorem hexDigitsVal_append_digit (s : List Char) (c : Char) :
    hexDigitsVal (s ++ [c]) = hexDigitsVal s * 16 + (hexCharVal c).getD 0 := by
  unfold hexDigitsVal
  rw [List.foldl_append]
  rfl

theorem hexDigitsVal_natToHexAux :
    ∀ (f n : Nat), n ≤ f → hexDigitsVal (natToHexAux f n) = n := by
  intro f
  induction f with
  | zero => intro n hn; interval_cases n; rfl
  | succ f ih =>
    intro n hn
    unfold natToHexAux
    by_cases h0 : n = 0
    · rw [if_pos h0]; simp [h0, hexDigitsVal]
    · rw [if_neg h0, hexDigitsVal_append_digit, ih (n / 16) (by omega),
        hexCharVal_hexDigitChar ⟨n % 16, by omega⟩]
      simp only [Option.getD_some]
      omega

theorem hexDigitsVal_natToHexStr (n : Nat) : hexDigitsVal (natToHexStr n) = n := by
  unfold natToHexStr
  by_cases h0 : n = 0
  · rw [if_pos h0, h0]; rfl
  · rw [if_neg h0]; exact hexDigitsVal_natToHexAux n n (by omega)

/-! ### Base64 codec lemmas -/

theorem b64DecVal_urlRepl_b64Char :
    ∀ v : Fin 64, b64DecVal (urlRepl (b64Char v.val)) = some v.val := by
  decide

theorem b64DecVal_pad : b64DecVal (urlRepl '=') = none := by decide

theorem b64_roundtrip : ∀ (bs : List Nat), (∀ b ∈ bs, b < 256) →
    b64Decode (urlB64Encode bs) = bs
  | [], _ => rfl
  | [a], h => by
    have ha : a < 256 := h a (by simp)
    have h1 : b64DecVal (urlRepl (b64Char (a / 4))) = some (a / 4) :=
      b64DecVal_urlRepl_b64Char ⟨a / 4, by omega⟩
    have h2 : b64DecVal (urlRepl (b64Char (a % 4 * 16))) = some (a % 4 * 16) :=
      b64DecVal_urlRepl_b64Char ⟨a % 4 * 16, by omega⟩
    show b64Groups (List.filterMap b64DecVal
      [urlRepl (b64Char (a / 4)), urlRepl (b64Char (a % 4 * 16)), urlRepl '=', urlRepl '=']) =
        [a]
    simp only [List.filterMap_cons, h1, h2, b64DecVal_pad, List.filterMap_nil]
    show [a / 4 * 4 + a % 4 * 16 / 16] = [a]
    congr 1
    omega
  | [a, b], h => by
    have ha : a < 256 := h a (by simp)
    have hb : b < 256 := h b (by simp)
    have h1 : b64DecVal (urlRepl (b64Char (a / 4))) = some (a / 4) :=
      b64DecVal_urlRepl_b64Char ⟨a / 4, by omega⟩
    have h2 : b64DecVal (urlRepl (b64Char (a % 4 * 16 + b / 16))) = some (a % 4 * 16 + b / 16) :=
      b64DecVal_urlRepl_b64Char ⟨a % 4 * 16 + b / 16, by omega⟩
    have h3 : b64DecVal (urlRepl (b64Char (b % 16 * 4))) = some (b % 16 * 4) :=
      b64DecVal_urlRepl_b64Char ⟨b % 16 * 4, by omega⟩
    show b64Groups (List.filterMap b64DecVal
      [urlRepl (b64Char (a / 4)), urlRepl (b64Char (a % 4 * 16 + b / 16)),
        urlRepl (b64Char (b % 16 * 4)), urlRepl '=']) = [a, b]
    simp only [List.filterMap_cons, h1, h2, h3, b64DecVal_pad, List.filterMap_nil]
    show [a / 4 * 4 + (a % 4 * 16 + b / 16) / 16,
      (a % 4 * 16 + b / 16) % 16 * 16 + b % 16 * 4 / 4] = [a, b]
    congr 1
    · omega
    · congr 1
      omega
  | a :: b :: c :: rest, h => by
    have ha : a < 256 := h a (by simp)
    have hb : b < 256 := h b (by simp)
    have hc : c < 256 := h c (by simp)
    have h1 : b64DecVal (urlRepl (b64Char (a / 4))) = some (a / 4) :=
      b64DecVal_urlRepl_b64Char ⟨a / 4, by omega⟩
    have h2 : b64DecVal (urlRepl (b64Char (a % 4 * 16 + b / 16))) = some (a % 4 * 16 + b / 16) :=
      b64DecVal_urlRepl_b64Char ⟨a % 4 * 16 + b / 16, by omega⟩
    have h3 : b64DecVal (urlRepl (b64Char (b % 16 * 4 + c / 64))) = some (b % 16 * 4 + c / 64) :=
      b64DecVal_urlRepl_b64Char ⟨b % 16 * 4 + c / 64, by omega⟩
    have h4 : b64DecVal (urlRepl (b64Char (c % 64))) = some (c % 64) :=
      b64DecVal_urlRepl_b64Char ⟨c % 64, by omega⟩
    show b64Groups (List.filterMap b64DecVal
      (urlRepl (b64Char (a / 4)) :: urlRepl (b64Char (a % 4 * 16 + b / 16)) ::
        urlRepl (b64Char (b % 16 * 4 + c / 64)) :: urlRepl (b64Char (c % 64)) ::
        (b64EncodeCore rest).map urlRepl)) = a :: b :: c :: rest
    simp only [List.filterMap_cons, h1, h2, h3, h4]
    show (a / 4 * 4 + (a % 4 * 16 + b / 16) / 16) ::
      ((a % 4 * 16 + b / 16) % 16 * 16 + (b % 16 * 4 + c / 64) / 4) ::
      ((b % 16 * 4 + c / 64) % 4 * 64 + c % 64) ::
      b64Groups (List.filterMap b64DecVal ((b64EncodeCore rest).map urlRepl)) = _
    rw [show b64Groups (List.filterMap b64DecVal ((b64EncodeCore rest).map urlRepl)) =
      b64Decode (urlB64Encode rest) from rfl]
    rw [b64_roundtrip rest (fun x hx => h x (by simp [hx]))]
    congr 1
    · omega
    · congr 1
      · omega
      · congr 1
        omega

theorem urlRepl_b64Char_ne_dot : ∀ v : Fin 64, urlRepl (b64Char v.val) ≠ '.' := by decide

theorem dot_not_mem_urlB64 : ∀ (bs : List Nat), (∀ b ∈ bs, b < 256) →
    ('.' : Char) ∉ urlB64Encode bs
  | [], _ => by simp [urlB64Encode, b64EncodeCore]
  | [a], h => by
    have ha : a < 256 := h a (by simp)
    intro hmem
    have e1 := urlRepl_b64Char_ne_dot ⟨a / 4, by omega⟩
    have e2 := urlRepl_b64Char_ne_dot ⟨a % 4 * 16, by omega⟩
    simp only [urlB64Encode, b64EncodeCore, List.map_cons, List.map_nil,
      List.mem_cons, List.not_mem_nil] at hmem
    rcases hmem with hx | hx | hx | hx | hx <;> first
      | (exact e1 hx.symm)
      | (exact e2 hx.symm)
      | (revert hx; decide)
      | (exact hx)
  | [a, b], h => by
    have ha : a < 256 := h a (by simp)
    have hb : b < 256 := h b (by simp)
    intro hmem
    have e1 := urlRepl_b64Char_ne_dot ⟨a / 4, by omega⟩
    have e2 := urlRepl_b64Char_ne_dot ⟨a % 4 * 16 + b / 16, by omega⟩
    have e3 := urlRepl_b64Char_ne_dot ⟨b % 16 * 4, by omega⟩
    simp only [urlB64Encode, b64EncodeCore, List.map_cons, List.map_nil,
      List.mem_cons, List.not_mem_nil] at hmem
    rcases hmem with hx | hx | hx | hx | hx <;> first
      | (exact e1 hx.symm)
      | (exact e2 hx.symm)
      | (exact e3 hx.symm)
      | (revert hx; decide)
      | (exact hx)
  | a :: b :: c :: rest, h => by
    have ha : a < 256 := h a (by simp)
    have hb : b < 256 := h b (by simp)
    have hc : c < 256 := h c (by simp)
    intro hmem
    have e1 := urlRepl_b64Char_ne_dot ⟨a / 4, by omega⟩
    have e2 := urlRepl_b64Char_ne_dot ⟨a % 4 * 16 + b / 16, by omega⟩
    have e3 := urlRepl_b64Char_ne_dot ⟨b % 16 * 4 + c / 64, by omega⟩
    have e4 := urlRepl_b64Char_ne_dot ⟨c % 64, by omega⟩
    have etail := dot_not_mem_urlB64 rest (fun x hx => h x (by simp [hx]))
    simp only [urlB64Encode, b64EncodeCore, List.map_cons, List.mem_cons] at hmem
    rcases hmem with hx | hx | hx | hx | hx
    · exact e1 hx.symm
    · exact e2 hx.symm
    · exact e3 hx.symm
    · exact e4 hx.symm
    · exact etail hx

theorem urlB64_ne_nil : ∀ (bs : List Nat), bs ≠ [] → urlB64Encode bs ≠ []
  | [], h => absurd rfl h
  | [_], _ => by simp [urlB64Encode, b64EncodeCore]
  | [_, _], _ => by simp [urlB64Encode, b64EncodeCore]
  | _ :: _ :: _ :: _, _ => by simp [urlB64Encode, b64EncodeCore]

/-! ### Ascii codec lemmas -/

theorem asciiDecode_asciiEncode : ∀ (s : List Char), (∀ c ∈ s, c.toNat < 128) →
    asciiDecode (asciiEncode s) = s
  | [], _ => rfl
  | c :: rest, h => by
    have hc : c.toNat < 128 := h c (by simp)
    show Char.ofNat (c.toNat % 256 % 128) :: asciiDecode (asciiEncode rest) = c :: rest
    rw [asciiDecode_asciiEncode rest (fun x hx => h x (by simp [hx])),
      show c.toNat % 256 % 128 = c.toNat by omega, Char.ofNat_toNat]

theorem asciiEncode_lt (s : List Char) : ∀ b ∈ asciiEncode s, b < 256 := by
  unfold asciiEncode
  intro b hb
  obtain ⟨c, _, rfl⟩ := List.mem_map.mp hb
  omega

/-! ### splitOnChar lemmas -/

theorem splitOnChar_ne_nil (sep : Char) : ∀ (s : List Char), splitOnChar sep s ≠ []
  | [] => by simp [splitOnChar]
  | c :: rest => by
    unfold splitOnChar
    cases h : splitOnChar sep rest with
    | nil => simp
    | cons g gs =>
      by_cases hc : c = sep <;> simp [hc]

theorem splitOnChar_of_not_mem (sep : Char) :
    ∀ (s : List Char), sep ∉ s → splitOnChar sep s = [s]
  | [], _ => rfl
  | c :: rest, h => by
    have ih := splitOnChar_of_not_mem sep rest (fun hm => h (by simp [hm]))
    show (match splitOnChar sep rest with
      | [] => [[]]
      | g :: gs => if c = sep then [] :: g :: gs else (c :: g) :: gs) = [c :: rest]
    rw [ih]
    dsimp only
    rw [if_neg (fun he => h (by simp [he]))]

theorem splitOnChar_append (sep : Char) :
    ∀ (s1 s2 : List Char), sep ∉ s1 →
      splitOnChar sep (s1 ++ sep :: s2) = s1 :: splitOnChar sep s2
  | [], s2, _ => by
    show (match splitOnChar sep s2 with
      | [] => [[]]
      | g :: gs => if sep = sep then [] :: g :: gs else (sep :: g) :: gs) =
      [] :: splitOnChar sep s2
    cases h : splitOnChar sep s2 with
    | nil => exact absurd h (splitOnChar_ne_nil sep s2)
    | cons g gs =>
      dsimp only
      rw [if_pos rfl]
  | c :: rest, s2, h => by
    have ih := splitOnChar_append sep rest s2 (fun hm => h (by simp [hm]))
    show (match splitOnChar sep (rest ++ sep :: s2) with
      | [] => [[]]
      | g :: gs => if c = sep then [] :: g :: gs else (c :: g) :: gs) =
      (c :: rest) :: splitOnChar sep s2
    rw [ih]
    dsimp only
    rw [if_neg (fun he => h (by simp [he]))]

/-! ### parseInt lemmas -/

theorem jsSign_of_head (c : Char) (r : List Char) (h1 : c ≠ '-') (h2 : c ≠ '+') :
    jsSign (c :: r) = (1, c :: r) := by
  unfold jsSign
  split
  · rename_i heq
    cases heq
    exact absurd rfl h1
  · rename_i heq
    cases heq
    exact absurd rfl h2
  · rfl

theorem takeWhile_all_true {p : Char → Bool} :
    ∀ (s : List Char), (∀ c ∈ s, p c = true) → s.takeWhile p = s
  | [], _ => rfl
  | c :: rest, h => by
    unfold List.takeWhile
    rw [h c (by simp)]
    rw [takeWhile_all_true rest (fun x hx => h x (by simp [hx]))]

/-- parseInt('0x' + t) for a nonempty all-hex-digit t parses all of t. -/
theorem jsParseInt_hexStr (t : List Char) (hne : t ≠ [])
    (hall : ∀ c ∈ t, (hexCharVal c).isSome = true) :
    jsParseInt ('0' :: 'x' :: t) = some ((hexDigitsVal t : Int)) := by
  unfold jsParseInt
  have hdw : ('0' :: 'x' :: t).dropWhile isJsSpace = '0' :: 'x' :: t := by
    rw [List.dropWhile_cons_of_neg (by decide)]
  rw [hdw, jsSign_of_head '0' ('x' :: t) (by decide) (by decide)]
  dsimp only
  show (if ('x' : Char) = 'x' ∨ ('x' : Char) = 'X' then
      if List.takeWhile (fun ch => (hexCharVal ch).isSome) t = [] then none
      else some ((1 : Int) *
        (hexDigitsVal (List.takeWhile (fun ch => (hexCharVal ch).isSome) t) : Int))
    else some ((1 : Int) * (decDigitsVal (List.takeWhile isDecDigit ('0' :: 'x' :: t)) : Int))) =
    some ((hexDigitsVal t : Int))
  rw [if_pos (Or.inl rfl), takeWhile_all_true t hall, if_neg hne, Int.one_mul]

theorem isDecDigit_natToDecAux :
    ∀ (f n : Nat), n ≤ f → ∀ c ∈ natToDecAux f n, isDecDigit c = true := by
  intro f
  induction f with
  | zero => intro n _ c hc; simp [natToDecAux] at hc
  | succ f ih =>
    intro n hn c hc
    unfold natToDecAux at hc
    by_cases h0 : n = 0
    · rw [if_pos h0] at hc; simp at hc
    · rw [if_neg h0] at hc
      rcases List.mem_append.mp hc with hc | hc
      · exact ih (n / 10) (by omega) c hc
      · simp only [List.mem_singleton] at hc
        subst hc
        obtain ⟨m, hm, he⟩ : ∃ m, m < 10 ∧ n % 10 = m := ⟨n % 10, by omega, rfl⟩
        rw [he]
        interval_cases m <;> decide

theorem natToDecAux_ne_nil (f n : Nat) (h0 : n ≠ 0) (hf : n ≤ f) : natToDecAux f n ≠ [] := by
  cases f with
  | zero => omega
  | succ f =>
    unfold natToDecAux
    rw [if_neg h0]
    simp

theorem decDigitsVal_append_digit (s : List Char) (c : Char) :
    decDigitsVal (s ++ [c]) = decDigitsVal s * 10 + (c.toNat - 48) := by
  unfold decDigitsVal
  rw [List.foldl_append]
  rfl

theorem decDigitsVal_natToDecAux :
    ∀ (f n : Nat), n ≤ f → decDigitsVal (natToDecAux f n) = n := by
  intro f
  induction f with
  | zero => intro n hn; interval_cases n; rfl
  | succ f ih =>
    intro n hn
    unfold natToDecAux
    by_cases h0 : n = 0
    · rw [if_pos h0]; simp [h0, decDigitsVal]
    · rw [if_neg h0, decDigitsVal_append_digit, ih (n / 10) (by omega)]
      have key : ∀ m : Nat, m < 10 → (Char.ofNat (48 + m)).toNat = 48 + m := by
        intro m hm
        interval_cases m <;> decide
      have := key (n % 10) (by omega)
      omega

theorem natToDecAux_zero (f : Nat) : natToDecAux f 0 = [] := by cases f <;> rfl

theorem natToDecStr_ne_nil (n : Nat) : natToDecStr n ≠ [] := by
  unfold natToDecStr
  by_cases h0 : n = 0
  · rw [if_pos h0]; simp
  · rw [if_neg h0]; exact natToDecAux_ne_nil n n h0 (by omega)

theorem natToDecAux_head_ne_zero :
    ∀ (f m : Nat), m ≠ 0 → m ≤ f → ∀ (c : Char) (rest : List Char),
      natToDecAux f m = c :: rest → c ≠ '0' := by
  intro f
  induction f with
  | zero => intro m h0 hf; omega
  | succ f ih =>
    intro m h0 hf c rest heq
    unfold natToDecAux at heq
    rw [if_neg h0] at heq
    by_cases hdiv : m / 10 = 0
    · rw [hdiv, natToDecAux_zero] at heq
      simp only [List.nil_append, List.cons.injEq] at heq
      obtain ⟨hm, hd⟩ : m % 10 = m ∧ m < 10 := by omega
      rw [← heq.1, hm]
      have h1 : 1 ≤ m := by omega
      clear heq hm hf h0 hdiv
      interval_cases m <;> decide
    · cases hrec : natToDecAux f (m / 10) with
      | nil => exact absurd hrec (natToDecAux_ne_nil f (m / 10) hdiv (by omega))
      | cons c2 rest2 =>
        rw [hrec] at heq
        simp only [List.cons_append, List.cons.injEq] at heq
        rw [← heq.1]
        exact ih (m / 10) hdiv (by omega) c2 rest2 hrec

theorem isDecDigit_not_space (c : Char) (h : isDecDigit c = true) : isJsSpace c = false := by
  simp only [isDecDigit, Bool.and_eq_true, decide_eq_true_eq] at h
  simp only [isJsSpace, Bool.or_eq_false_iff, decide_eq_false_iff_not]
  omega

theorem isDecDigit_ne_sign (c : Char) (h : isDecDigit c = true) : c ≠ '-' ∧ c ≠ '+' := by
  simp only [isDecDigit, Bool.and_eq_true, decide_eq_true_eq] at h
  constructor <;> intro he <;> subst he <;> revert h <;> decide

theorem jsParseInt_natToDecStr (m : Nat) (h0 : m ≠ 0) :
    jsParseInt (natToDecStr m) = some ((m : Int)) := by
  have hne : natToDecStr m ≠ [] := natToDecStr_ne_nil m
  obtain ⟨c, rest, hs⟩ := List.exists_cons_of_ne_nil hne
  have hall : ∀ x ∈ natToDecStr m, isDecDigit x = true := by
    unfold natToDecStr
    rw [if_neg h0]
    exact isDecDigit_natToDecAux m m (by omega)
  have hchead : isDecDigit c = true := hall c (by rw [hs]; simp)
  have hc0 : c ≠ '0' := by
    unfold natToDecStr at hs
    rw [if_neg h0] at hs
    exact natToDecAux_head_ne_zero m m h0 (by omega) c rest hs
  unfold jsParseInt
  rw [hs, List.dropWhile_cons_of_neg (by rw [isDecDigit_not_space c hchead]; simp),
    jsSign_of_head c rest (isDecDigit_ne_sign c hchead).1 (isDecDigit_ne_sign c hchead).2]
  dsimp only
  split
  · rename_i c2 r heq
    injection heq with h1 h2
    exact absurd h1 hc0
  · rw [takeWhile_all_true (c :: rest) (fun x hx => hall x (by rw [hs]; exact hx)),
      if_neg (by simp)]
    rw [Int.one_mul]
    have : decDigitsVal (c :: rest) = m := by
      rw [← hs]
      unfold natToDecStr
      rw [if_neg h0]
      exact decDigitsVal_natToDecAux m m (by omega)
    rw [this]

theorem jsParseInt_intToDecStr (n : Int) (h0 : n ≠ 0) :
    jsParseInt (intToDecStr n) = some n := by
  by_cases hneg : n < 0
  · have hm0 : n.natAbs ≠ 0 := by omega
    have hne : natToDecStr n.natAbs ≠ [] := natToDecStr_ne_nil _
    obtain ⟨c, rest, hs⟩ := List.exists_cons_of_ne_nil hne
    have hall : ∀ x ∈ natToDecStr n.natAbs, isDecDigit x = true := by
      unfold natToDecStr
      rw [if_neg hm0]
      exact isDecDigit_natToDecAux _ _ (by omega)
    have hchead : isDecDigit c = true := hall c (by rw [hs]; simp)
    have hc0 : c ≠ '0' := by
      unfold natToDecStr at hs
      rw [if_neg hm0] at hs
      exact natToDecAux_head_ne_zero _ _ hm0 (by omega) c rest hs
    unfold intToDecStr
    rw [if_pos hneg]
    unfold jsParseInt
    rw [hs]
    rw [show List.dropWhile isJsSpace ('-' :: c :: rest) = '-' :: c :: rest from
      List.dropWhile_cons_of_neg (by decide)]
    rw [show jsSign ('-' :: c :: rest) = (-1, c :: rest) from rfl]
    dsimp only
    split
    · rename_i c2 r heq
      injection heq with h1 h2
      exact absurd h1 hc0
    · rw [takeWhile_all_true (c :: rest) (fun x hx => hall x (by rw [hs]; exact hx)),
        if_neg (by simp)]
      have hv : decDigitsVal (c :: rest) = n.natAbs := by
        rw [← hs]
        unfold natToDecStr
        rw [if_neg hm0]
        exact decDigitsVal_natToDecAux _ _ (by omega)
      rw [hv]
      congr 1
      omega
  · unfold intToDecStr
    rw [if_neg hneg, jsParseInt_natToDecStr n.natAbs (by omega)]
    congr 1
    omega

/-! ### Character classification and URI codec identity lemmas -/

theorem unreserved_facts (c : Char) (h : isUnreservedURI c = true) :
    c ≠ '%' ∧ c ≠ '&' ∧ c ≠ '=' ∧ c.toNat < 128 := by
  simp only [isUnreservedURI, Bool.or_eq_true, Bool.and_eq_true, decide_eq_true_eq] at h
  have hv : c.toNat ≠ 37 ∧ c.toNat ≠ 38 ∧ c.toNat ≠ 61 ∧ c.toNat < 128 := by
    rcases h with ((((((((((⟨h1, h2⟩ | ⟨h1, h2⟩) | ⟨h1, h2⟩) | h1) | h1) | h1) | h1) |
      h1) | h1) | h1) | h1) | h1 <;> omega
  refine ⟨fun he => ?_, fun he => ?_, fun he => ?_, hv.2.2.2⟩
  · subst he; exact hv.1 (by decide)
  · subst he; exact hv.2.1 (by decide)
  · subst he; exact hv.2.2.1 (by decide)

theorem isDecDigit_unreserved (c : Char) (h : isDecDigit c = true) :
    isUnreservedURI c = true := by
  simp only [isDecDigit, Bool.and_eq_true, decide_eq_true_eq] at h
  simp only [isUnreservedURI, Bool.or_eq_true, Bool.and_eq_true, decide_eq_true_eq]
  omega

theorem intToDecStr_unreserved (n : Int) : ∀ c ∈ intToDecStr n, isUnreservedURI c = true := by
  intro c hc
  unfold intToDecStr at hc
  have hdigit : ∀ x ∈ natToDecStr n.natAbs, isUnreservedURI x = true := by
    intro x hx
    refine isDecDigit_unreserved x ?_
    unfold natToDecStr at hx
    by_cases h0 : n.natAbs = 0
    · rw [if_pos h0] at hx
      simp only [List.mem_singleton] at hx
      subst hx
      decide
    · rw [if_neg h0] at hx
      exact isDecDigit_natToDecAux _ _ (by omega) x hx
  by_cases hneg : n < 0
  · rw [if_pos hneg] at hc
    rcases List.mem_cons.mp hc with rfl | hc
    · decide
    · exact hdigit c hc
  · rw [if_neg hneg] at hc
    exact hdigit c hc

theorem encodeURIComponent_id : ∀ (s : List Char), (∀ c ∈ s, isUnreservedURI c = true) →
    encodeURIComponent s = s
  | [], _ => rfl
  | c :: rest, h => by
    show (if isUnreservedURI c then [c]
      else (utf8Bytes c.toNat).foldr (fun b a2 => pctByte b ++ a2) []) ++
        encodeURIComponent rest = c :: rest
    rw [if_pos (h c (by simp)), encodeURIComponent_id rest (fun x hx => h x (by simp [hx]))]
    rfl

theorem pctSplit_no_escape : ∀ (s : List Char), (∀ c ∈ s, c ≠ '%') →
    pctSplit s = some (s.map Sum.inl)
  | [], _ => rfl
  | c :: rest, h => by
    rw [pctSplit.eq_def]
    dsimp only
    rw [if_neg (h c (by simp)), pctSplit_no_escape rest (fun x hx => h x (by simp [hx]))]
    rfl

theorem decodeUnits_all_inl : ∀ (s : List Char), decodeUnits (s.map Sum.inl) = some s
  | [] => rfl
  | c :: rest => by
    show (decodeUnits (rest.map Sum.inl)).map (fun l => c :: l) = some (c :: rest)
    rw [decodeUnits_all_inl rest]
    rfl

theorem jsDecodeURIComponent_id (s : List Char) (h : ∀ c ∈ s, c ≠ '%') :
    jsDecodeURIComponent s = some s := by
  unfold jsDecodeURIComponent
  rw [pctSplit_no_escape s h]
  exact decodeUnits_all_inl s

/-! ### Sort lemmas -/

theorem lexLt_asymm : ∀ (a b : List Char), lexLt a b = true → lexLt b a = false
  | [], [] => by decide
  | [], _ :: _ => fun _ => rfl
  | _ :: _, [] => by intro h; cases h
  | x :: xs, y :: ys => by
    intro h
    unfold lexLt at h ⊢
    by_cases h1 : x.toNat < y.toNat
    · rw [if_neg (by omega), if_pos h1]
    · rw [if_neg h1] at h
      by_cases h2 : y.toNat < x.toNat
      · rw [if_pos h2] at h
        cases h
      · rw [if_neg h2] at h
        rw [if_neg h2, if_neg h1]
        exact lexLt_asymm xs ys h

theorem insertEntry_of_lt (x y : List Char) (ys : List (List Char)) (h : lexLt x y = true) :
    insertEntry x (y :: ys) = x :: y :: ys := by
  unfold insertEntry
  rw [lexLt_asymm x y h]
  simp

theorem sortEntries_sorted_id : ∀ (l : List (List Char)),
    l.Pairwise (fun a b => lexLt a b = true) → sortEntries l = l
  | [], _ => rfl
  | x :: xs, h => by
    rw [List.pairwise_cons] at h
    show insertEntry x (sortEntries xs) = x :: xs
    rw [sortEntries_sorted_id xs h.2]
    cases xs with
    | nil => rfl
    | cons y ys => exact insertEntry_of_lt x y ys (h.1 y (by simp))

/-! ### Metadata round-trip lemmas -/

/-- A metadata value that survives the deserializeMeta int coercion:
a nonzero number, or a string of unreserved characters that parseInt
does not coerce to a nonzero number. -/
def MetaValOk : MetaVal → Prop
  | .num n => n ≠ 0
  | .str s => (∀ c ∈ s, isUnreservedURI c = true) ∧
      (jsParseInt s = none ∨ jsParseInt s = some 0)

/-- A metadata entry whose key is left untouched by encodeURIComponent
(deserializeMeta never decodes keys) and whose value round-trips. -/
def MetaEntryOk (kv : List Char × MetaVal) : Prop :=
  (∀ c ∈ kv.1, isUnreservedURI c = true) ∧ MetaValOk kv.2

theorem metaValStr_unreserved (v : MetaVal) (h : MetaValOk v) :
    ∀ c ∈ metaValStr v, isUnreservedURI c = true := by
  cases v with
  | num n => exact intToDecStr_unreserved n
  | str s => exact h.1

theorem coerceMetaVal_roundtrip (v : MetaVal) (h : MetaValOk v) :
    coerceMetaVal (metaValStr v) = v := by
  cases v with
  | num n =>
    show coerceMetaVal (intToDecStr n) = MetaVal.num n
    unfold coerceMetaVal
    rw [jsParseInt_intToDecStr n h]
    match n, h with
    | Int.ofNat 0, h => exact absurd rfl h
    | Int.ofNat (m + 1), _ => rfl
    | Int.negSucc m, _ => rfl
  | str s =>
    show coerceMetaVal s = MetaVal.str s
    unfold coerceMetaVal
    rcases h.2 with h2 | h2
    · rw [h2]
    · rw [h2]
      rfl

theorem metaEntryStr_canonical (kv : List Char × MetaVal) (h : MetaEntryOk kv) :
    metaEntryStr kv = kv.1 ++ '=' :: metaValStr kv.2 := by
  unfold metaEntryStr
  rw [encodeURIComponent_id kv.1 h.1,
    encodeURIComponent_id (metaValStr kv.2) (metaValStr_unreserved kv.2 h.2)]

theorem splitOnChar_joinChar (sep : Char) : ∀ (es : List (List Char)), es ≠ [] →
    (∀ e ∈ es, sep ∉ e) → splitOnChar sep (joinChar sep es) = es
  | [], h, _ => absurd rfl h
  | [e], _, hall => splitOnChar_of_not_mem sep e (hall e (by simp))
  | e :: e2 :: rest, _, hall => by
    show splitOnChar sep (e ++ sep :: joinChar sep (e2 :: rest)) = e :: e2 :: rest
    rw [splitOnChar_append sep e _ (hall e (by simp)),
      splitOnChar_joinChar sep (e2 :: rest) (by simp) (fun x hx => hall x (by simp [hx]))]

theorem splitOnEq_entry (k v : List Char) (hk : ('=' : Char) ∉ k) (hv : ('=' : Char) ∉ v) :
    splitOnChar '=' (k ++ '=' :: v) = [k, v] := by
  rw [splitOnChar_append '=' k v hk, splitOnChar_of_not_mem '=' v hv]

theorem mapM_map_eq_some {α β γ : Type} (f : β → Option γ) (g : α → β) (h : α → γ) :
    ∀ (l : List α), (∀ x ∈ l, f (g x) = some (h x)) → (l.map g).mapM f = some (l.map h)
  | [], _ => rfl
  | x :: xs, hall => by
    rw [List.map_cons, List.mapM_cons, hall x (by simp),
      mapM_map_eq_some f g h xs (fun y hy => hall y (by simp [hy]))]
    rfl

theorem deserializeMeta_serializeMeta (meta : List (List Char × MetaVal))
    (hok : ∀ kv ∈ meta, MetaEntryOk kv)
    (hsorted : (meta.map metaEntryStr).Pairwise (fun a b => lexLt a b = true))
    (hne : meta ≠ [])
    (hlen : 2 < (serializeMeta meta).length) :
    deserializeMeta (serializeMeta meta) = some meta := by
  have hser : serializeMeta meta = joinChar '&' (meta.map metaEntryStr) := by
    unfold serializeMeta
    rw [sortEntries_sorted_id _ hsorted]
  have hentry : ∀ kv ∈ meta, metaEntryStr kv = kv.1 ++ '=' :: metaValStr kv.2 :=
    fun kv hkv => metaEntryStr_canonical kv (hok kv hkv)
  have hnoamp : ∀ e ∈ meta.map metaEntryStr, ('&' : Char) ∉ e := by
    intro e he
    obtain ⟨kv, hkv, rfl⟩ := List.mem_map.mp he
    rw [hentry kv hkv]
    intro hmem
    rcases List.mem_append.mp hmem with hm | hm
    · exact (unreserved_facts _ ((hok kv hkv).1 _ hm)).2.1 rfl
    · rcases List.mem_cons.mp hm with he2 | hm
      · cases he2
      · exact (unreserved_facts _
          (metaValStr_unreserved kv.2 (hok kv hkv).2 _ hm)).2.1 rfl
  unfold deserializeMeta
  rw [if_pos hlen, hser,
    splitOnChar_joinChar '&' (meta.map metaEntryStr) (by simpa using hne) hnoamp,
    List.map_congr_left hentry]
  have hone : ∀ kv ∈ meta,
      (fun e => match splitOnChar '=' e with
        | [k, v] => (jsDecodeURIComponent v).map (fun dv => (k, coerceMetaVal dv))
        | _ => none) (kv.1 ++ '=' :: metaValStr kv.2) = some kv := by
    intro kv hkv
    obtain ⟨hkey, hval⟩ := hok kv hkv
    have hkeq : ('=' : Char) ∉ kv.1 := fun hm => (unreserved_facts _ (hkey _ hm)).2.2.1 rfl
    have hveq : ('=' : Char) ∉ metaValStr kv.2 := fun hm =>
      (unreserved_facts _ (metaValStr_unreserved kv.2 hval _ hm)).2.2.1 rfl
    dsimp only
    rw [splitOnEq_entry kv.1 (metaValStr kv.2) hkeq hveq]
    dsimp only
    rw [jsDecodeURIComponent_id (metaValStr kv.2)
      (fun c hc => (unreserved_facts c (metaValStr_unreserved kv.2 hval c hc)).1)]
    dsimp only [Option.map]
    rw [coerceMetaVal_roundtrip kv.2 hval]
  rw [mapM_map_eq_some _ _ (fun kv => kv) meta hone, List.map_id']

theorem mem_joinChar (sep : Char) : ∀ (es : List (List Char)) (c : Char),
    c ∈ joinChar sep es → c = sep ∨ ∃ e ∈ es, c ∈ e
  | [], c, h => by simp [joinChar] at h
  | [e], c, h => Or.inr ⟨e, by simp, h⟩
  | e :: e2 :: rest, c, h => by
    have h2 : c ∈ e ++ sep :: joinChar sep (e2 :: rest) := h
    rcases List.mem_append.mp h2 with hm | hm
    · exact Or.inr ⟨e, by simp, hm⟩
    · rcases List.mem_cons.mp hm with rfl | hm
      · exact Or.inl rfl
      · rcases mem_joinChar sep (e2 :: rest) c hm with h1 | ⟨e3, he3, hc3⟩
        · exact Or.inl h1
        · exact Or.inr ⟨e3, List.mem_cons_of_mem e he3, hc3⟩

theorem hexEncode_ne_nil (bs : List Nat) (h : bs ≠ []) : hexEncode bs ≠ [] := by
  obtain ⟨b, rest, rfl⟩ := List.exists_cons_of_ne_nil h
  simp [hexEncode]

theorem token_assoc (x0 x1 x2 x3 x4 x5 : List Char) :
    ((((x0 ++ '.' :: x1) ++ '.' :: x2) ++ '.' :: x3) ++ '.' :: x4) ++ '.' :: x5 =
    x0 ++ '.' :: (x1 ++ '.' :: (x2 ++ '.' :: (x3 ++ '.' :: (x4 ++ '.' :: x5)))) := by
  simp [List.append_assoc]

theorem parseLDAT_fields (f0 f1 f2 f3 f4 : List Char) (tail : List (List Char))
    (tok : List Char) (m : List (List Char × MetaVal))
    (hsplit : splitOnChar '.' tok = f0 :: f1 :: f2 :: f3 :: f4 :: tail)
    (h0 : f0 ≠ []) (h1 : f1 ≠ []) (h2 : f2 ≠ []) (h3 : f3 ≠ []) (h4 : f4 ≠ [])
    (hm : parseMetaField f4 = some m) :
    (parseLDAT tok).map ParsedLDAT.host = some (some (asciiDecode (b64Decode f0))) ∧
    (parseLDAT tok).map ParsedLDAT.muid = some (some (urlB64Encode (b64Decode f1))) ∧
    (parseLDAT tok).map ParsedLDAT.pubkey = some (some (hexEncode (b64Decode f2))) ∧
    (parseLDAT tok).map ParsedLDAT.ts =
      some (some (jsParseInt ('0' :: 'x' :: hexEncode (b64Decode f3)))) ∧
    (parseLDAT tok).map ParsedLDAT.meta = some (some m) := by
  unfold parseLDAT
  rw [hsplit]
  simp only [ldatField, List.getD_cons_zero, List.getD_cons_succ]
  rw [if_neg h0, if_neg h1, if_neg h2, if_neg h3, if_neg h4]
  simp only [Option.map_some']
  rw [hm]
  refine ⟨rfl, rfl, rfl, rfl, rfl⟩

/-- C2 (amended): restricted to canonical inputs — an ascii host, a muid
and pubkey given in the canonical URL-safe-base64 / lowercase-hex encoding
of nonempty byte strings, a truthy ttl whose computed expiry has an even
number of hex digits, and metadata whose keys are unreserved-character
strings, whose values survive the deserializer's parseInt coercion, and
whose serialized entries are already strictly sorted — parseLDAT of
tokenFromTerms returns exactly the built values of the five non-signature
fields; and building a token is deterministic given identical inputs and
the same timestamp (immediate, since the embedding makes Date.now an
explicit argument). -/
theorem C2_ldat_roundtrip :
    (∀ (cfgMediaHost : List Char) (signB : List Nat → List Char)
      (zdec : List Char → List Nat) (host : List Char) (ms pbs : List Nat)
      (ttl : Option Int) (meta : List (List Char × MetaVal)) (now : Nat),
      host ≠ [] → (∀ c ∈ host, c.toNat < 128) →
      ms ≠ [] → (∀ b ∈ ms, b < 256) →
      pbs ≠ [] → (∀ b ∈ pbs, b < 256) →
      ttlTruthy ttl = true →
      (natToHexStr (now + 60 * 60 * 24 * 365)).length % 2 = 0 →
      (∀ kv ∈ meta, MetaEntryOk kv) →
      (meta.map metaEntryStr).Pairwise (fun a b => lexLt a b = true) →
      meta ≠ [] → 2 < (serializeMeta meta).length →
      ((parseLDAT (tokenFromTerms cfgMediaHost signB zdec host (urlB64Encode ms) ttl
          (hexEncode pbs) meta now)).map ParsedLDAT.host = some (some host) ∧
        (parseLDAT (tokenFromTerms cfgMediaHost signB zdec host (urlB64Encode ms) ttl
          (hexEncode pbs) meta now)).map ParsedLDAT.muid = some (some (urlB64Encode ms)) ∧
        (parseLDAT (tokenFromTerms cfgMediaHost signB zdec host (urlB64Encode ms) ttl
          (hexEncode pbs) meta now)).map ParsedLDAT.pubkey = some (some (hexEncode pbs)) ∧
        (parseLDAT (tokenFromTerms cfgMediaHost signB zdec host (urlB64Encode ms) ttl
          (hexEncode pbs) meta now)).map ParsedLDAT.ts =
          some (some (some ((now + 60 * 60 * 24 * 365 : Nat) : Int))) ∧
        (parseLDAT (tokenFromTerms cfgMediaHost signB zdec host (urlB64Encode ms) ttl
          (hexEncode pbs) meta now)).map ParsedLDAT.meta = some (some meta)))
    ∧ (∀ cfgMediaHost signB zdec host muid ttl pubkey meta now,
      tokenFromTerms cfgMediaHost signB zdec host muid ttl pubkey meta now =
        tokenFromTerms cfgMediaHost signB zdec host muid ttl pubkey meta now) := by
  refine ⟨?_, fun _ _ _ _ _ _ _ _ _ => rfl⟩
  intro cfg signB zdec host ms pbs ttl meta now hhne hhlt hmsne hmsb hpbne hpbsb httl heven
    hok hsorted hmne hmlen
  set exp := now + 60 * 60 * 24 * 365 with hexpdef
  have hexp0 : ldatExp ttl now = exp := by simp [ldatExp, httl]
  have hexpne : exp ≠ 0 := by omega
  have hpkne : hexEncode pbs ≠ [] := hexEncode_ne_nil pbs hpbne
  have hpkdec : hexDecode (hexEncode pbs) = pbs := hexDecode_hexEncode pbs hpbsb
  have hmsdec : b64Decode (urlB64Encode ms) = ms := b64_roundtrip ms hmsb
  have hpbdec : b64Decode (urlB64Encode pbs) = pbs := b64_roundtrip pbs hpbsb
  have hhostdec : b64Decode (urlB64Encode (asciiEncode host)) = asciiEncode host :=
    b64_roundtrip _ (asciiEncode_lt host)
  have hser : serializeMeta meta = joinChar '&' (meta.map metaEntryStr) := by
    unfold serializeMeta
    rw [sortEntries_sorted_id _ hsorted]
  have hserchars : ∀ c ∈ serializeMeta meta, c.toNat < 128 := by
    intro c hc
    rw [hser] at hc
    rcases mem_joinChar '&' (meta.map metaEntryStr) c hc with rfl | ⟨e, he, hce⟩
    · decide
    · obtain ⟨kv, hkv, rfl⟩ := List.mem_map.mp he
      rw [metaEntryStr_canonical kv (hok kv hkv)] at hce
      rcases List.mem_append.mp hce with hm | hm
      · exact (unreserved_facts _ ((hok kv hkv).1 _ hm)).2.2.2
      · rcases List.mem_cons.mp hm with rfl | hm
        · decide
        · exact (unreserved_facts _ (metaValStr_unreserved _ (hok kv hkv).2 _ hm)).2.2.2
  have hserne : serializeMeta meta ≠ [] := by
    intro he
    rw [he] at hmlen
    simp at hmlen
  have hmetadec : b64Decode (urlB64Encode (asciiEncode (serializeMeta meta))) =
      asciiEncode (serializeMeta meta) := b64_roundtrip _ (asciiEncode_lt _)
  have hexpvalid : ∀ c ∈ natToHexStr exp, isLowerHex c = true := natToHexStr_all_lower exp
  have hexpenc : hexEncode (hexDecode (natToHexStr exp)) = natToHexStr exp :=
    hexEncode_hexDecode _ hexpvalid heven
  have hexpbufne : hexDecode (natToHexStr exp) ≠ [] := by
    intro he
    rw [he] at hexpenc
    exact natToHexStr_ne_nil exp hexpenc.symm
  have hexpdec : b64Decode (urlB64Encode (hexDecode (natToHexStr exp))) =
      hexDecode (natToHexStr exp) := b64_roundtrip _ (hexDecode_lt _)
  obtain ⟨f5, htok⟩ : ∃ f5,
      tokenFromTerms cfg signB zdec host (urlB64Encode ms) ttl (hexEncode pbs) meta now =
        urlB64Encode (asciiEncode host) ++ '.' :: (urlB64Encode ms ++ '.' ::
          (urlB64Encode pbs ++ '.' :: (urlB64Encode (hexDecode (natToHexStr exp)) ++ '.' ::
            (urlB64Encode (asciiEncode (serializeMeta meta)) ++ '.' :: f5)))) := by
    refine ⟨urlB64Encode (zdec (signB (asciiEncode host ++ ms ++ pbs ++
      hexDecode (natToHexStr exp) ++ asciiEncode (serializeMeta meta)))), ?_⟩
    unfold tokenFromTerms startLDAT
    dsimp only
    rw [hexp0, hpkdec]
    rw [show jsOrStr host (jsOrStr cfg []) = host from by unfold jsOrStr; rw [if_neg hhne]]
    rw [if_neg (urlB64_ne_nil pbs hpbne), if_neg hexpne, hpbdec, hmsdec]
    rw [if_pos hpkne]
    exact token_assoc _ _ _ _ _ _
  rw [htok]
  have hdot0 : ('.' : Char) ∉ urlB64Encode (asciiEncode host) :=
    dot_not_mem_urlB64 _ (asciiEncode_lt host)
  have hdot1 : ('.' : Char) ∉ urlB64Encode ms := dot_not_mem_urlB64 ms hmsb
  have hdot2 : ('.' : Char) ∉ urlB64Encode pbs := dot_not_mem_urlB64 pbs hpbsb
  have hdot3 : ('.' : Char) ∉ urlB64Encode (hexDecode (natToHexStr exp)) :=
    dot_not_mem_urlB64 _ (hexDecode_lt _)
  have hdot4 : ('.' : Char) ∉ urlB64Encode (asciiEncode (serializeMeta meta)) :=
    dot_not_mem_urlB64 _ (asciiEncode_lt _)
  have hsplit : splitOnChar '.' (urlB64Encode (asciiEncode host) ++ '.' ::
      (urlB64Encode ms ++ '.' :: (urlB64Encode pbs ++ '.' ::
        (urlB64Encode (hexDecode (natToHexStr exp)) ++ '.' ::
          (urlB64Encode (asciiEncode (serializeMeta meta)) ++ '.' :: f5))))) =
      urlB64Encode (asciiEncode host) :: urlB64Encode ms :: urlB64Encode pbs ::
        urlB64Encode (hexDecode (natToHexStr exp)) ::
        urlB64Encode (asciiEncode (serializeMeta meta)) :: splitOnChar '.' f5 := by
    rw [splitOnChar_append '.' _ _ hdot0, splitOnChar_append '.' _ _ hdot1,
      splitOnChar_append '.' _ _ hdot2, splitOnChar_append '.' _ _ hdot3,
      splitOnChar_append '.' _ _ hdot4]
  have hne0 : urlB64Encode (asciiEncode host) ≠ [] := by
    refine urlB64_ne_nil _ ?_
    intro he
    rw [show asciiEncode host = List.map (fun c => c.toNat % 256) host from rfl] at he
    exact hhne (List.map_eq_nil_iff.mp he)
  have hne1 : urlB64Encode ms ≠ [] := urlB64_ne_nil ms hmsne
  have hne2 : urlB64Encode pbs ≠ [] := urlB64_ne_nil pbs hpbne
  have hne3 : urlB64Encode (hexDecode (natToHexStr exp)) ≠ [] :=
    urlB64_ne_nil _ hexpbufne
  have hne4 : urlB64Encode (asciiEncode (serializeMeta meta)) ≠ [] := by
    refine urlB64_ne_nil _ ?_
    intro he
    rw [show asciiEncode (serializeMeta meta) =
      List.map (fun c => c.toNat % 256) (serializeMeta meta) from rfl] at he
    exact hserne (List.map_eq_nil_iff.mp he)
  have hpm : parseMetaField (urlB64Encode (asciiEncode (serializeMeta meta))) = some meta := by
    unfold parseMetaField
    rw [hmetadec, asciiDecode_asciiEncode _ hserchars, if_neg hserne]
    exact deserializeMeta_serializeMeta meta hok hsorted hmne hmlen
  have hts : jsParseInt ('0' :: 'x' :: hexEncode (b64Decode
      (urlB64Encode (hexDecode (natToHexStr exp))))) = some ((exp : Int)) := by
    rw [hexpdec, hexpenc, jsParseInt_hexStr (natToHexStr exp) (natToHexStr_ne_nil exp)
      (fun c hc => by
        obtain ⟨v, _, hv, _⟩ := lowerHex_decomp c (hexpvalid c hc)
        rw [hv]
        rfl),
      hexDigitsVal_natToHexStr]
  obtain ⟨hh, hm2, hp, ht2, hme⟩ :=
    parseLDAT_fields _ _ _ _ _ _ _ meta hsplit hne0 hne1 hne2 hne3 hne4 hpm
  refine ⟨?_, ?_, ?_, ?_, hme⟩
  · rw [hh, hhostdec, asciiDecode_asciiEncode host hhlt]
  · rw [hm2, hmsdec]
  · rw [hp, hpbdec]
  · rw [ht2, hts]

theorem C2_ldat_roundtrip_witness :
    ((parseLDAT (tokenFromTerms [] (fun _ => "SIG".toList) (fun _ => [7, 8, 9]) ("h".toList)
        (urlB64Encode [1]) (some 1) (hexEncode [2])
        [("amt".toList, MetaVal.num 100)] 1600000000)).map ParsedLDAT.host =
          some (some ("h".toList)) ∧
      (parseLDAT (tokenFromTerms [] (fun _ => "SIG".toList) (fun _ => [7, 8, 9]) ("h".toList)
        (urlB64Encode [1]) (some 1) (hexEncode [2])
        [("amt".toList, MetaVal.num 100)] 1600000000)).map ParsedLDAT.muid =
          some (some (urlB64Encode [1])) ∧
      (parseLDAT (tokenFromTerms [] (fun _ => "SIG".toList) (fun _ => [7, 8, 9]) ("h".toList)
        (urlB64Encode [1]) (some 1) (hexEncode [2])
        [("amt".toList, MetaVal.num 100)] 1600000000)).map ParsedLDAT.pubkey =
          some (some (hexEncode [2])) ∧
      (parseLDAT (tokenFromTerms [] (fun _ => "SIG".toList) (fun _ => [7, 8, 9]) ("h".toList)
        (urlB64Encode [1]) (some 1) (hexEncode [2])
        [("amt".toList, MetaVal.num 100)] 1600000000)).map ParsedLDAT.ts =
          some (some (some ((1600000000 + 60 * 60 * 24 * 365 : Nat) : Int))) ∧
      (parseLDAT (tokenFromTerms [] (fun _ => "SIG".toList) (fun _ => [7, 8, 9]) ("h".toList)
        (urlB64Encode [1]) (some 1) (hexEncode [2])
        [("amt".toList, MetaVal.num 100)] 1600000000)).map ParsedLDAT.meta =
          some (some [("amt".toList, MetaVal.num 100)])) ∧
    tokenFromTerms [] (fun _ => []) (fun _ => []) [] [] none [] [] 0 =
      tokenFromTerms [] (fun _ => []) (fun _ => []) [] [] none [] [] 0 :=
  ⟨C2_ldat_roundtrip.1 [] (fun _ => "SIG".toList) (fun _ => [7, 8, 9]) ("h".toList) [1] [2]
     (some 1) [("amt".toList, MetaVal.num 100)] 1600000000
     (by decide) (by decide) (by decide) (by decide) (by decide) (by decide) (by decide)
     (by decide)
     (fun kv hkv => by
       rcases List.mem_singleton.mp hkv with rfl
       exact ⟨by decide, show (100 : Int) ≠ 0 by decide⟩)
     (by simp)
     (by decide) (by decide),
   C2_ldat_roundtrip.2 [] (fun _ => []) (fun _ => []) [] [] none [] [] 0⟩

end SphinxRelay
